import Mathlib

/-!
# Streaming media recognition (`src/track/media_stream.cpp`)

A shallow embedding of the provider registry `stream_data`, the URL matcher
`FindStreamFromUrl`, the title extractor `ApplyStreamTitleFormat` /
`CleanStreamTitle`, the wrapper `GetTitleFromStreamingMediaProvider` and the
browser title normalizer `NormalizeWebBrowserTitle`.

Strings are lists of Unicode characters.  The patterns of the registry are
written in the ECMAScript grammar of `std::regex`; they are embedded as syntax
trees and run by a backtracking matcher with the priorities of that grammar
(greedy quantifiers, leftmost alternative first).
-/

namespace track.recognition

/-- Text: the content of a `std::wstring` / `std::string`, as a list of characters. -/
abbrev Str := List Char

/-! ## Regular expressions -/

/-- Sub-match table of a match: the text of every marked sub-expression that took part. -/
abbrev Caps := List (Nat × Str)

/-- One-character atoms: the wildcard `.` and bracket classes such as `[a-z.]`, `[^/]`, `\d`. -/
inductive Atom where
  | any
  | set (negated : Bool) (ranges : List (Char × Char))
deriving DecidableEq, Repr

/-- Whether a character is accepted by an atom. The wildcard rejects the two line
terminators a `char` matcher knows, line feed and carriage return. -/
def Atom.test : Atom → Char → Bool
  | .any, c => !(c == '\n' || c == '\r')
  | .set negated ranges, c =>
      (ranges.any fun r => decide (r.1 ≤ c) && decide (c ≤ r.2)) != negated

/-- The fragment of the ECMAScript grammar used by the registry. Quantifiers other than
`?` are only ever applied to one-character atoms there. -/
inductive Regex where
  | lit (w : Str)
  | one (a : Atom)
  | many (a : Atom) (lo : Nat) (hi : Option Nat)
  | seq (r₁ r₂ : Regex)
  | alt (r₁ r₂ : Regex)
  | opt (r : Regex)
  | group (i : Nat) (r : Regex)
deriving DecidableEq, Repr

/-- Ordered choice of the backtracking matcher: the second branch runs only when the
first one has failed. -/
def orTry {α : Type} : Option α → Option α → Option α
  | some x, _ => some x
  | none, y => y

/-- Greedy repetition of an atom, `n` repetitions already taken: take one more when
allowed, and fall back to leaving here when the rest of the pattern fails further on. -/
def manyGo {α : Type} (a : Atom) (lo : Nat) (hi : Option Nat) (k : Str → Option α) :
    Nat → Str → Option α
  | n, [] => if lo ≤ n then k [] else none
  | n, c :: cs =>
      if a.test c && (match hi with | none => true | some h => decide (n < h)) then
        orTry (manyGo a lo hi k (n + 1) cs) (if lo ≤ n then k (c :: cs) else none)
      else if lo ≤ n then k (c :: cs) else none

/-- The text consumed between the input `s` and its remainder `rest`. -/
def consumed (s rest : Str) : Str := s.take (s.length - rest.length)

/-- Backtracking matcher in continuation-passing style: `k` is the rest of the pattern,
called with the remaining input and the sub-matches recorded so far. A one-character atom
consumes one character of the text here, and one byte of its UTF-8 form in `std::regex`
over `std::string`; the two agree on ASCII text and wherever the atom is repeated without
bound (`.+`, `[^/]+`), and differ only for a single `.` facing a non-ASCII character, which
in the registry is the dot of `Wakanim.TV`. -/
def Regex.run {α : Type} : Regex → Str → Caps → (Str → Caps → Option α) → Option α
  | .lit w, s, c, k => if w.isPrefixOf s then k (s.drop w.length) c else none
  | .one a, s, c, k =>
      match s with
      | [] => none
      | x :: xs => if a.test x then k xs c else none
  | .many a lo hi, s, c, k => manyGo a lo hi (fun s' => k s' c) 0 s
  | .seq r₁ r₂, s, c, k => r₁.run s c (fun s' c' => r₂.run s' c' k)
  | .alt r₁ r₂, s, c, k => orTry (r₁.run s c k) (r₂.run s c k)
  | .opt r, s, c, k => orTry (r.run s c k) (k s c)
  | .group i r, s, c, k => r.run s c (fun s' c' => k s' ((i, consumed s s') :: c'))

/-- Number of marked sub-expressions of a pattern (`mark_count`). -/
def Regex.mark_count : Regex → Nat
  | .lit _ => 0
  | .one _ => 0
  | .many _ _ _ => 0
  | .seq r₁ r₂ => r₁.mark_count + r₂.mark_count
  | .alt r₁ r₂ => r₁.mark_count + r₂.mark_count
  | .opt r => r.mark_count
  | .group _ r => r.mark_count + 1

/-- The match of a pattern that starts exactly at the head of `s`: the remaining input
and the sub-matches, or `none`. -/
def matchAt (r : Regex) (s : Str) : Option (Str × Caps) :=
  r.run s [] (fun rest c => some (rest, c))

/-- The end-of-input test that closes a whole-string match. -/
def atEnd (rest : Str) (c : Caps) : Option Caps := if rest.isEmpty then some c else none

/-- Whole-string match (`std::regex_match`): the sub-matches when the pattern matches all of
`s`, `none` when it does not. -/
def regex_match (r : Regex) (s : Str) : Option Caps :=
  r.run s [] atEnd

/-- Substring search (`std::regex_search` used as a test): the pattern matches at some
position of `s`, the end included. -/
def regex_search (r : Regex) : Str → Bool
  | [] => (matchAt r []).isSome
  | c :: cs => (matchAt r (c :: cs)).isSome || regex_search r cs

/-- Method `str(i)` of a match: the text of sub-match `i`, empty when it took no part. -/
def Caps.str (m : Caps) (i : Nat) : Str :=
  match m.lookup i with
  | some t => t
  | none => []

/-- A piece of a replacement format: literal text or a sub-match reference `$i`. -/
inductive Fmt where
  | text (t : Str)
  | sub (i : Nat)
deriving DecidableEq, Repr

/-- Expansion of a replacement format for one match. -/
def format (fmt : List Fmt) (m : Caps) : Str :=
  fmt.foldr (fun p acc => (match p with | .text t => t | .sub i => m.str i) ++ acc) []

/-- Scan of `std::regex_replace`: text outside matches is copied, every match (leftmost
first, the next search starting where the previous match ended) is replaced by the expanded
format. `skip` counts the characters of the current match still to be dropped; after an
empty match one character is copied before the search resumes. -/
def replaceGo (r : Regex) (fmt : List Fmt) : Str → Nat → Str
  | [], 0 =>
      match matchAt r [] with
      | some (_, m) => format fmt m
      | none => []
  | [], _ + 1 => []
  | _ :: cs, skip + 1 => replaceGo r fmt cs skip
  | c :: cs, 0 =>
      match matchAt r (c :: cs) with
      | some (rest, m) =>
          if rest.length < (c :: cs).length then
            format fmt m ++ replaceGo r fmt cs (cs.length - rest.length)
          else
            format fmt m ++ c :: replaceGo r fmt cs 0
      | none => c :: replaceGo r fmt cs 0

/-- Model of `std::regex_replace(s, pattern, fmt)` with the default flags. -/
def regex_replace (s : Str) (r : Regex) (fmt : List Fmt) : Str := replaceGo r fmt s 0

/-- Concatenation of sub-patterns, read left to right. -/
def Regex.cat : List Regex → Regex
  | [] => .lit []
  | [r] => r
  | r :: rs => .seq r (Regex.cat rs)

/-- Alternation `r₁|r₂|…`, the leftmost alternative having priority. -/
def Regex.alts : List Regex → Regex
  | [] => .lit []
  | [r] => r
  | r :: rs => .alt r (Regex.alts rs)

/-- Literal text of a pattern. -/
def Regex.str (w : String) : Regex := .lit w.toList

/-- Atom `.+`. -/
def Regex.anyPlus : Regex := .many .any 1 none

/-- Atom `.*`. -/
def Regex.anyStar : Regex := .many .any 0 none

/-- Class `[0-9]`, also written `\d`. -/
def Atom.digit : Atom := .set false [('0', '9')]

/-- Class `[a-z]`. -/
def Atom.lower : Atom := .set false [('a', 'z')]

/-- Class `[a-z.]`. -/
def Atom.lowerDot : Atom := .set false [('a', 'z'), ('.', '.')]

/-- Class `[a-z0-9-]`. -/
def Atom.hostChar : Atom := .set false [('a', 'z'), ('0', '9'), ('-', '-')]

/-- Class `[^/]`. -/
def Atom.notSlash : Atom := .set true [('/', '/')]

/-! ## String utilities of `base/string.h` -/

/-- Modelled from the spec: `EraseLeft` of `base/string.h` is not part of the sources at
hand. It removes a leading `str2` from `str1` when `str1` starts with exactly that text
(case-sensitive, exact literal prefix only) and leaves `str1` unchanged otherwise. -/
def EraseLeft (str1 str2 : Str) : Str :=
  if str2.isPrefixOf str1 then str1.drop str2.length else str1

/-- Modelled from the spec: `WstrToStr` of `base/string.h` is not part of the sources at
hand. The encoding into the narrow string used for matching is a representational step
only; on lists of characters it is the identity. -/
def WstrToStr (s : Str) : Str := s

/-- Modelled from the spec: `StrToWstr` of `base/string.h` is not part of the sources at
hand. It is the lossless inverse of `WstrToStr`; on lists of characters it is the identity. -/
def StrToWstr (s : Str) : Str := s

/-- Replacement of the first occurrence of `find_this` only. -/
def replaceFirst (find_this replace_with : Str) : Str → Str
  | [] => []
  | c :: cs =>
      if find_this.isPrefixOf (c :: cs) then replace_with ++ (c :: cs).drop find_this.length
      else c :: replaceFirst find_this replace_with cs

/-- Replacement of every occurrence of `find_this`, scanning left to right and resuming
after each replaced occurrence; `skip` counts the characters of the current occurrence
still to be dropped. -/
def replaceEvery (find_this replace_with : Str) : Str → Nat → Str
  | [], _ => []
  | _ :: cs, skip + 1 => replaceEvery find_this replace_with cs skip
  | c :: cs, 0 =>
      if find_this.isPrefixOf (c :: cs) then
        replace_with ++ replaceEvery find_this replace_with cs (find_this.length - 1)
      else c :: replaceEvery find_this replace_with cs 0

/-- Modelled from the spec: `ReplaceString` of `base/string.h` is not part of the sources at
hand. Every call here starts at offset 0 and does not ask for whole words; the last flag
selects between replacing the first occurrence only and replacing all of them (the
three-argument form used for Plex replaces all). Matching is literal and case-sensitive;
an empty `find_this` changes nothing. -/
def ReplaceString (str find_this replace_with : Str) (replace_all_instances : Bool) : Str :=
  if find_this.isEmpty then str
  else if replace_all_instances then replaceEvery find_this replace_with str 0
  else replaceFirst find_this replace_with str

/-! ## The provider registry -/

/-- Identity of a provider (`enum class Stream`). -/
inductive Stream where
  | Unknown | Animelab | Ann | Crunchyroll | Daisuki | Hidive | Plex
  | Veoh | Viz | Vrv | Wakanim | Youtube
deriving DecidableEq, Repr

/-- The setting keys `taiga::kStream_*` of `taiga/settings.h`, one per provider. -/
inductive AppSetting where
  | kStream_Animelab | kStream_Ann | kStream_Crunchyroll | kStream_Daisuki
  | kStream_Hidive | kStream_Plex | kStream_Veoh | kStream_Viz | kStream_Vrv
  | kStream_Wakanim | kStream_Youtube
deriving DecidableEq, Repr

/-- The settings store as seen from here: `Settings.GetBool(option_id)`. -/
abbrev SettingsStore := AppSetting → Bool

/-- One registry entry (`struct StreamData`). -/
structure StreamData where
  id : Stream
  option_id : AppSetting
  name : String
  url_pattern : Regex
  title_pattern : Regex
deriving DecidableEq, Repr

open Regex in
/-- The registry `stream_data`, in declaration order. -/
def stream_data : List StreamData := [
  -- AnimeLab
  { id := Stream.Animelab, option_id := AppSetting.kStream_Animelab, name := "AnimeLab",
    -- animelab\.com/player/
    url_pattern := str "animelab.com/player/",
    -- AnimeLab - (.+)
    title_pattern := cat [str "AnimeLab - ", group 1 anyPlus] },
  -- Anime News Network
  { id := .Ann, option_id := .kStream_Ann, name := "Anime News Network",
    -- animenewsnetwork\.(?:com|cc)/video/[0-9]+
    url_pattern := cat [str "animenewsnetwork.", alts [str "com", str "cc"], str "/video/",
      many .digit 1 none],
    -- (.+) - Anime News Network
    title_pattern := cat [group 1 anyPlus, str " - Anime News Network"] },
  -- Crunchyroll
  { id := .Crunchyroll, option_id := .kStream_Crunchyroll, name := "Crunchyroll",
    -- crunchyroll\.[a-z.]+/[^/]+/(?:episode-[0-9]+.*|.*-(?:movie|ona|ova))-[0-9]+
    url_pattern := cat [str "crunchyroll.", many .lowerDot 1 none, str "/",
      many .notSlash 1 none, str "/",
      alts [cat [str "episode-", many .digit 1 none, anyStar],
            cat [anyStar, str "-", alts [str "movie", str "ona", str "ova"]]],
      str "-", many .digit 1 none],
    -- Crunchyroll - Watch (?:(.+) - (?:Movie - Movie|ONA - ONA|OVA - OVA)|(.+))
    title_pattern := cat [str "Crunchyroll - Watch ",
      alts [cat [group 1 anyPlus, str " - ",
                 alts [str "Movie - Movie", str "ONA - ONA", str "OVA - OVA"]],
            group 2 anyPlus]] },
  -- DAISUKI
  { id := .Daisuki, option_id := .kStream_Daisuki, name := "DAISUKI",
    -- daisuki\.net/[a-z]+/[a-z]+/anime/watch
    url_pattern := cat [str "daisuki.net/", many .lower 1 none, str "/", many .lower 1 none,
      str "/anime/watch"],
    -- (.+) - DAISUKI
    title_pattern := cat [group 1 anyPlus, str " - DAISUKI"] },
  -- HIDIVE
  { id := .Hidive, option_id := .kStream_Hidive, name := "HIDIVE",
    -- hidive\.com/stream/
    url_pattern := str "hidive.com/stream/",
    -- (.+)
    title_pattern := group 1 anyPlus },
  -- Plex
  { id := .Plex, option_id := .kStream_Plex, name := "Plex",
    -- plex\.tv/web/|localhost:32400/web/|
    -- \d{1,3}\.\d{1,3}\.\d{1,3}\.\d{1,3}:32400/web/|
    -- plex\.[a-z0-9-]+\.[a-z0-9-]+|[a-z0-9-]+\.[a-z0-9-]+/plex
    url_pattern := alts [
      str "plex.tv/web/",
      str "localhost:32400/web/",
      cat [many .digit 1 (some 3), str ".", many .digit 1 (some 3), str ".",
           many .digit 1 (some 3), str ".", many .digit 1 (some 3), str ":32400/web/"],
      cat [str "plex.", many .hostChar 1 none, str ".", many .hostChar 1 none],
      cat [many .hostChar 1 none, str ".", many .hostChar 1 none, str "/plex"]],
    -- Plex|(?:\u25B6 )?(.+)
    title_pattern := alts [str "Plex", cat [opt (str "\u25B6 "), group 1 anyPlus]] },
  -- Veoh
  { id := .Veoh, option_id := .kStream_Veoh, name := "Veoh",
    -- veoh\.com/watch/
    url_pattern := str "veoh.com/watch/",
    -- Watch Videos Online \| (.+) \| Veoh\.com
    title_pattern := cat [str "Watch Videos Online | ", group 1 anyPlus, str " | Veoh.com"] },
  -- Viz Anime
  { id := .Viz, option_id := .kStream_Viz, name := "Viz Anime",
    -- viz\.com/watch/streaming/[^/]+-(?:episode-[0-9]+|movie)/
    url_pattern := cat [str "viz.com/watch/streaming/", many .notSlash 1 none, str "-",
      alts [cat [str "episode-", many .digit 1 none], str "movie"], str "/"],
    -- (.+) // VIZ
    title_pattern := cat [group 1 anyPlus, str " // VIZ"] },
  -- VRV
  { id := .Vrv, option_id := .kStream_Vrv, name := "VRV",
    -- vrv\.co/watch
    url_pattern := str "vrv.co/watch",
    -- VRV - Watch (.+)
    title_pattern := cat [str "VRV - Watch ", group 1 anyPlus] },
  -- Wakanim
  { id := .Wakanim, option_id := .kStream_Wakanim, name := "Wakanim",
    -- wakanim\.tv/video(?:-premium)?/[^/]+/
    url_pattern := cat [str "wakanim.tv/video", opt (str "-premium"), str "/",
      many .notSlash 1 none, str "/"],
    -- (.+) / Streaming - Wakanim.TV   (the dot of "Wakanim.TV" is a wildcard)
    title_pattern := cat [group 1 anyPlus, str " / Streaming - Wakanim", one .any, str "TV"] },
  -- YouTube
  { id := .Youtube, option_id := .kStream_Youtube, name := "YouTube",
    -- youtube\.com/watch
    url_pattern := str "youtube.com/watch",
    -- YouTube|(?:\u25B6 )?(.+) - YouTube
    title_pattern := alts [str "YouTube",
      cat [opt (str "\u25B6 "), group 1 anyPlus, str " - YouTube"]] }
]

/-! ## URL matcher -/

/-- The loop of `FindStreamFromUrl` over the registry: the first entry whose URL pattern
is found in `str` decides, by its enabled flag, and ends the scan. -/
def findStream (settings : SettingsStore) (str : Str) : List StreamData → Option StreamData
  | [] => none
  | item :: rest =>
      if regex_search item.url_pattern str then
        (if settings item.option_id then some item else none)
      else findStream settings str rest

/-- Scheme stripping done at the head of `FindStreamFromUrl`. -/
def stripScheme (url : Str) : Str :=
  EraseLeft (EraseLeft url "http://".toList) "https://".toList

/-- Embedding of `FindStreamFromUrl`; `none` is the null pointer. -/
def FindStreamFromUrl (settings : SettingsStore) (url : Str) : Option StreamData :=
  let url := stripScheme url
  if url.isEmpty then none
  else
    let str := WstrToStr url
    findStream settings str stream_data

/-! ## Title extraction -/

/-- The loop of `ApplyStreamTitleFormat` over the sub-matches `i, i+1, …` (`n` of them
left): the first non-empty one. -/
def firstNonEmpty (m : Caps) : Nat → Nat → Option Str
  | _, 0 => none
  | i, n + 1 => if !(m.str i).isEmpty then some (m.str i) else firstNonEmpty m (i + 1) n

/-- Embedding of `ApplyStreamTitleFormat`: the returned flag and the title left behind. -/
def ApplyStreamTitleFormat (stream_data : StreamData) (title : Str) : Bool × Str :=
  match regex_match stream_data.title_pattern title with
  | some m =>
      -- Use the first non-empty match result
      match firstNonEmpty m 1 stream_data.title_pattern.mark_count with
      | some t => (true, t)
      -- Results are empty, but the match was successful
      | none => (true, [])
  | none => (false, title)

/-- The pattern of the Anime News Network clean-up: ` \((?:s|d)(?:, uncut)?\)`. -/
def annPattern : Regex :=
  .cat [.str " (", .alts [.str "s", .str "d"], .opt (.str ", uncut"), .str ")"]

/-- The pattern of the DAISUKI clean-up: `(#\d+ .+) - (.+)`. -/
def daisukiPattern : Regex :=
  .cat [.group 1 (.cat [.str "#", .many .digit 1 none, .str " ", .anyPlus]), .str " - ",
        .group 2 .anyPlus]

/-- Embedding of `CleanStreamTitle`: the title left behind. -/
def CleanStreamTitle (stream_data : StreamData) (title : Str) : Str :=
  match ApplyStreamTitleFormat stream_data title with
  | (false, title) => title
  | (true, title) =>
      match stream_data.id with
      | .Ann => regex_replace title annPattern []
      | .Daisuki => regex_replace title daisukiPattern [.sub 2, .text " - ".toList, .sub 1]
      | .Plex =>
          let str := StrToWstr title
          let str := ReplaceString str " \u00B7 ".toList [] true
          WstrToStr str
      | .Vrv =>
          let str := StrToWstr title
          let str := ReplaceString str ": EP ".toList " - EP ".toList false
          WstrToStr str
      | .Wakanim =>
          let str := StrToWstr title
          let str := ReplaceString str " de ".toList " ".toList false
          let str := ReplaceString str " en VOSTFR".toList " VOSTFR".toList false
          WstrToStr str
      | _ => title

/-- Embedding of `GetTitleFromStreamingMediaProvider`: the returned flag and the title
left behind. -/
def GetTitleFromStreamingMediaProvider (settings : SettingsStore) (url title : Str) :
    Bool × Str :=
  let stream := FindStreamFromUrl settings url
  let title :=
    match stream with
    | some stream =>
        let str := WstrToStr title
        let str := CleanStreamTitle stream str
        StrToWstr str
    | none => []
  (!title.isEmpty, title)

/-! ## Browser title noise -/

/-- Modelled from the spec: `StartsWith` of `base/string.h` is not part of the sources at
hand. It tells whether `str1` begins with exactly the text `str2`. -/
def StartsWith (str1 str2 : Str) : Bool := str2.isPrefixOf str1

/-- Modelled from the spec: `EndsWith` of `base/string.h` is not part of the sources at
hand. It tells whether `str1` ends with exactly the text `str2`. -/
def EndsWith (str1 str2 : Str) : Bool := str2.isSuffixOf str1

/-- Modelled from the spec: `EraseRight` of `base/string.h` is not part of the sources at
hand. It removes a trailing `str2` from `str1` when `str1` ends with exactly that text and
leaves `str1` unchanged otherwise. -/
def EraseRight (str1 str2 : Str) : Str :=
  if EndsWith str1 str2 then str1.take (str1.length - str2.length) else str1

/-- The part of `class Url` (`base/url.h`) that is used here: the host component. -/
structure Url where
  host : Str
deriving DecidableEq, Repr

/-- The constructor `Url(address)` of `base/url.h`, which is not part of the sources at
hand: it is a parameter of the functions that parse an address. -/
abbrev UrlParser := Str → Url

/-- The set `common_titles` of `IgnoreCommonWebBrowserTitles`. -/
def common_titles : List Str := [
  "Blank Page".toList,            -- Internet Explorer
  "InPrivate".toList,             -- Internet Explorer
  "New Tab".toList,               -- Chrome, Firefox
  "Private Browsing".toList,      -- Firefox
  "Private browsing".toList,      -- Opera
  "Problem loading page".toList,  -- Firefox
  "Speed Dial".toList,            -- Opera
  "Untitled".toList               -- Chrome
]

/-- The vector `common_suffixes` of `IgnoreCommonWebBrowserTitles`. -/
def IgnoreCommonWebBrowserTitles.common_suffixes : List Str := [
  " - Network error".toList  -- Chrome
]

/-- The vector `common_suffixes` of `RemoveCommonWebBrowserAffixes`. -/
def RemoveCommonWebBrowserAffixes.common_suffixes : List Str := [
  " - Audio playing".toList  -- Chrome
]

/-- The last loop of `IgnoreCommonWebBrowserTitles`: the first suffix the title ends with
clears it and ends the function. -/
def clearOnSuffix (title : Str) : List Str → Str
  | [] => title
  | suffix :: rest => if EndsWith title suffix then [] else clearOnSuffix title rest

/-- Embedding of `IgnoreCommonWebBrowserTitles`: the title left behind. -/
def IgnoreCommonWebBrowserTitles (parse : UrlParser) (address title : Str) : Str :=
  let url := parse address
  let title := if !url.host.isEmpty && StartsWith title url.host then [] else title
  let title :=
    if StartsWith title "http://".toList || StartsWith title "https://".toList then []
    else title
  let title := if common_titles.contains title then [] else title
  clearOnSuffix title IgnoreCommonWebBrowserTitles.common_suffixes

/-- Embedding of `RemoveCommonWebBrowserAffixes`: the title left behind. -/
def RemoveCommonWebBrowserAffixes (title : Str) : Str :=
  RemoveCommonWebBrowserAffixes.common_suffixes.foldl EraseRight title

/-- Embedding of `NormalizeWebBrowserTitle`: the title left behind. -/
def NormalizeWebBrowserTitle (parse : UrlParser) (url title : Str) : Str :=
  let title := IgnoreCommonWebBrowserTitles parse url title
  RemoveCommonWebBrowserAffixes title

/-- The reference of the noise normalizer, written from the words of the specification:
`h` is the host component of the URL and `t` the title. -/
def NormalizeWebBrowserTitle_reference (h t : Str) : Str :=
  if (!h.isEmpty && StartsWith t h)
      || StartsWith t "http://".toList || StartsWith t "https://".toList
      || decide (t ∈ common_titles)
      || EndsWith t " - Network error".toList then []
  else if EndsWith t " - Audio playing".toList then
    t.take (t.length - " - Audio playing".toList.length)
  else t

/-! ## Registry entries, fixed texts and sample inputs used in the statements -/

/-- All settings on. -/
def allEnabled : SettingsStore := fun _ => true

/-- The registry entry of Plex. -/
def plexEntry : StreamData := stream_data[5]

/-- The registry entry of YouTube. -/
def youtubeEntry : StreamData := stream_data[10]

/-- A YouTube address whose query string looks like a Plex host. -/
def plexLikeYoutubeUrl : Str := "www.youtube.com/watch?v=plex.a.b".toList

/-- The registry entry of AnimeLab. -/
def animelabEntry : StreamData := stream_data[0]

/-- An AnimeLab player address. -/
def animelabUrl : Str := "https://www.animelab.com/player/x".toList

/-- A Plex web client address. -/
def plexUrl : Str := "https://app.plex.tv/web/index.html".toList

/-- The registry entry of Crunchyroll. -/
def crunchyrollEntry : StreamData := stream_data[2]

/-- The fixed head of a Crunchyroll title. -/
def crunchyrollLead : Str := "Crunchyroll - Watch ".toList

/-- The separator ` - `. -/
def dashSep : Str := " - ".toList

/-- The three qualifiers of the Crunchyroll title pattern. -/
def crunchyrollQualifiers : List Str :=
  ["Movie - Movie".toList, "ONA - ONA".toList, "OVA - OVA".toList]

/-- The part ` - (?:Movie - Movie|ONA - ONA|OVA - OVA)` of the Crunchyroll title pattern. -/
def crunchyrollTail : Regex :=
  .seq (.lit dashSep)
    (.alt (.lit "Movie - Movie".toList) (.alt (.lit "ONA - ONA".toList) (.lit "OVA - OVA".toList)))

/-- The registry entry of DAISUKI. -/
def daisukiEntry : StreamData := stream_data[3]

/-- The mark `#` that opens an episode tag. -/
def hashMark : Str := "#".toList

/-- A single blank. -/
def blank : Str := " ".toList

/-- The fixed end ` - DAISUKI` of a DAISUKI title. -/
def daisukiEnd : Str := " - DAISUKI".toList

/-- The scheme `http://`. -/
def httpScheme : Str := "http://".toList

/-- The scheme `https://`. -/
def httpsScheme : Str := "https://".toList

/-- The suffix ` - Network error`. -/
def networkError : Str := " - Network error".toList

/-- The suffix ` - Audio playing`. -/
def audioPlaying : Str := " - Audio playing".toList

/-- A URL parser that reports the same host for every address. -/
def hostParser (h : Str) : UrlParser := fun _ => ⟨h⟩

/-- The test made by `IgnoreCommonWebBrowserTitles` as a whole: the title is cleared. -/
def isIgnoredTitle (h t : Str) : Bool :=
  (!h.isEmpty && StartsWith t h) || StartsWith t httpScheme || StartsWith t httpsScheme
    || decide (t ∈ common_titles) || EndsWith t networkError

/-- The registry entry of VRV. -/
def vrvEntry : StreamData := stream_data[8]

/-- The registry entry of Wakanim. -/
def wakanimEntry : StreamData := stream_data[9]

/-- The fixed head of a VRV title. -/
def vrvLead : Str := "VRV - Watch ".toList

/-- The fixed end of a Wakanim title. -/
def wakanimEnd : Str := " / Streaming - Wakanim.TV".toList

/-- The text `: EP ` rewritten for VRV. -/
def colonEp : Str := ": EP ".toList

/-- The text ` - EP ` written for VRV. -/
def dashEp : Str := " - EP ".toList

/-- The part ` / Streaming - Wakanim.TV` of the Wakanim title pattern, its dot a wildcard. -/
def wakanimTail : Regex :=
  .seq (.lit " / Streaming - Wakanim".toList) (.seq (.one .any) (.lit "TV".toList))

/-- `t` is `s` with its first occurrence of `find_this` replaced by `replace_with` and
everything else, later occurrences included, left as it is; when `find_this` does not
occur in `s`, `t` is `s` itself. -/
def FirstReplaced (find_this replace_with s t : Str) : Prop :=
  (¬ find_this <:+: s ∧ t = s) ∨
  ∃ A B : Str, s = A ++ find_this ++ B ∧
    (∀ A' B' : Str, s = A' ++ find_this ++ B' → A.length ≤ A'.length) ∧
    t = A ++ replace_with ++ B

/-- The registry entry of Anime News Network. -/
def annEntry : StreamData := stream_data[1]

/-- The four texts matched by the Anime News Network clean-up pattern. -/
def annTags : List Str :=
  [" (s)".toList, " (d)".toList, " (s, uncut)".toList, " (d, uncut)".toList]

/-- The separator removed for Plex: a blank, a middle dot U+00B7, a blank. -/
def middleDotSep : Str := " · ".toList

/-- `t` is `s` with every occurrence of one of the texts `tags` deleted, scanning from the
left: when none of them occurs in `s`, `t` is `s`; otherwise the leftmost occurrence is
deleted, the text before it is kept, and the text after it is treated in the same way. -/
inductive OccurrencesRemoved (tags : List Str) : Str → Str → Prop
  | none_left (s : Str) : (∀ g ∈ tags, ¬ g <:+: s) → OccurrencesRemoved tags s s
  | first (A g B t : Str) : g ∈ tags →
      (∀ A' g' B' : Str, g' ∈ tags → A ++ g ++ B = A' ++ g' ++ B' → A.length ≤ A'.length) →
      OccurrencesRemoved tags B t → OccurrencesRemoved tags (A ++ g ++ B) (A ++ t)

/-! ## Facts about the URL matcher -/

theorem findStream_append_hit (settings : SettingsStore) (s : Str) (P : StreamData)
    (after : List StreamData) :
    ∀ before : List StreamData,
      (∀ Q ∈ before, regex_search Q.url_pattern s = false) →
      regex_search P.url_pattern s = true →
      findStream settings s (before ++ P :: after) =
        if settings P.option_id then some P else none := by
  intro before
  induction before with
  | nil => intro _ hP; simp [findStream, hP]
  | cons Q rest ih =>
      intro hQ hP
      have hQ0 : regex_search Q.url_pattern s = false := hQ Q (List.mem_cons_self _ _)
      have hrest : ∀ R ∈ rest, regex_search R.url_pattern s = false :=
        fun R hR => hQ R (List.mem_cons_of_mem _ hR)
      simp [findStream, hQ0, ih hrest hP]

theorem findStream_no_hit (settings : SettingsStore) (s : Str) :
    ∀ l : List StreamData,
      (∀ Q ∈ l, regex_search Q.url_pattern s = false) → findStream settings s l = none := by
  intro l
  induction l with
  | nil => intro _; rfl
  | cons Q rest ih =>
      intro hQ
      have hQ0 : regex_search Q.url_pattern s = false := hQ Q (List.mem_cons_self _ _)
      have hrest : ∀ R ∈ rest, regex_search R.url_pattern s = false :=
        fun R hR => hQ R (List.mem_cons_of_mem _ hR)
      simp [findStream, hQ0, ih hrest]

/-- No URL pattern of the registry matches the empty string. -/
theorem url_pattern_needs_text :
    ∀ Q ∈ stream_data, regex_search Q.url_pattern [] = false := by
  decide

/-- What `FindStreamFromUrl` returns when `P` is the first entry whose pattern is found. -/
theorem FindStreamFromUrl_of_first (settings : SettingsStore) (url : Str)
    (before after : List StreamData) (P : StreamData)
    (hreg : stream_data = before ++ P :: after)
    (hP : regex_search P.url_pattern (stripScheme url) = true)
    (hfirst : ∀ Q ∈ before, regex_search Q.url_pattern (stripScheme url) = false) :
    FindStreamFromUrl settings url = if settings P.option_id then some P else none := by
  have hmem : P ∈ stream_data := by rw [hreg]; simp
  have hne : (stripScheme url).isEmpty = false := by
    cases h : stripScheme url with
    | nil =>
        rw [h] at hP
        rw [url_pattern_needs_text P hmem] at hP
        cases hP
    | cons c cs => rfl
  unfold FindStreamFromUrl
  simp only [hne, WstrToStr]
  rw [hreg]
  simpa using findStream_append_hit settings (stripScheme url) P after before hfirst hP

/-- What `FindStreamFromUrl` returns when no pattern is found. -/
theorem FindStreamFromUrl_of_none (settings : SettingsStore) (url : Str)
    (hno : ∀ Q ∈ stream_data, regex_search Q.url_pattern (stripScheme url) = false) :
    FindStreamFromUrl settings url = none := by
  unfold FindStreamFromUrl
  simp only [WstrToStr]
  rw [findStream_no_hit settings (stripScheme url) stream_data hno]
  simp

/-- C1: `FindStreamFromUrl` returns the first registry entry, in declaration order, whose
URL pattern is found in the scheme-stripped URL, provided that entry is enabled; when no
pattern is found (in particular when the stripped URL is empty) it returns no provider. -/
theorem FindStreamFromUrl_first_match (settings : SettingsStore) (url : Str) :
    (∀ (before after : List StreamData) (P : StreamData),
        stream_data = before ++ P :: after →
        regex_search P.url_pattern (stripScheme url) = true →
        (∀ Q ∈ before, regex_search Q.url_pattern (stripScheme url) = false) →
        settings P.option_id = true →
        FindStreamFromUrl settings url = some P) ∧
    ((∀ Q ∈ stream_data, regex_search Q.url_pattern (stripScheme url) = false) →
        FindStreamFromUrl settings url = none) ∧
    (stripScheme url = [] →
        (∀ Q ∈ stream_data, regex_search Q.url_pattern (stripScheme url) = false) ∧
        FindStreamFromUrl settings url = none) := by
  refine ⟨?_, FindStreamFromUrl_of_none settings url, ?_⟩
  · intro before after P hreg hP hfirst hen
    rw [FindStreamFromUrl_of_first settings url before after P hreg hP hfirst, hen]
    rfl
  · intro hs
    have hno : ∀ Q ∈ stream_data, regex_search Q.url_pattern (stripScheme url) = false := by
      rw [hs]; exact url_pattern_needs_text
    exact ⟨hno, FindStreamFromUrl_of_none settings url hno⟩

/-- C1, instance: with every provider enabled, an address matched by both the Plex and the
YouTube pattern yields Plex, the earlier entry; an address matched by no pattern and the
bare scheme yield no provider. -/
theorem FindStreamFromUrl_first_match_witness :
    FindStreamFromUrl allEnabled ("https://".toList ++ plexLikeYoutubeUrl) = some plexEntry ∧
    FindStreamFromUrl allEnabled "https://example.org/".toList = none ∧
    FindStreamFromUrl allEnabled "https://".toList = none :=
  ⟨(FindStreamFromUrl_first_match allEnabled ("https://".toList ++ plexLikeYoutubeUrl)).1
      (stream_data.take 5) (stream_data.drop 6) plexEntry (by decide) (by decide) (by decide)
      rfl,
   (FindStreamFromUrl_first_match allEnabled "https://example.org/".toList).2.1 (by decide),
   ((FindStreamFromUrl_first_match allEnabled "https://".toList).2.2 (by decide)).2⟩

/-- C2: when the first registry entry whose URL pattern is found in the scheme-stripped URL
is disabled, `FindStreamFromUrl` returns no provider, whatever later entries match; so the
YouTube address `www.youtube.com/watch?v=plex.a.b`, also matched by the Plex pattern,
yields no provider when Plex is disabled and YouTube enabled. -/
theorem FindStreamFromUrl_disabled_suppresses (settings : SettingsStore) (url : Str) :
    (∀ (before after : List StreamData) (P : StreamData),
        stream_data = before ++ P :: after →
        regex_search P.url_pattern (stripScheme url) = true →
        (∀ Q ∈ before, regex_search Q.url_pattern (stripScheme url) = false) →
        settings P.option_id = false →
        FindStreamFromUrl settings url = none) ∧
    (settings .kStream_Plex = false → settings .kStream_Youtube = true →
        regex_search youtubeEntry.url_pattern (stripScheme plexLikeYoutubeUrl) = true ∧
        FindStreamFromUrl settings plexLikeYoutubeUrl = none) := by
  constructor
  · intro before after P hreg hP hfirst hdis
    rw [FindStreamFromUrl_of_first settings url before after P hreg hP hfirst, hdis]
    rfl
  · intro hplex _
    refine ⟨by decide, ?_⟩
    have h := FindStreamFromUrl_of_first settings plexLikeYoutubeUrl
      (stream_data.take 5) (stream_data.drop 6) plexEntry (by decide) (by decide) (by decide)
    rw [h]
    have : settings plexEntry.option_id = false := hplex
    rw [this]
    rfl

/-- C2, instance: Plex disabled and every other provider enabled. -/
theorem FindStreamFromUrl_disabled_suppresses_witness :
    FindStreamFromUrl (fun o => decide (o ≠ .kStream_Plex)) plexLikeYoutubeUrl = none ∧
    regex_search youtubeEntry.url_pattern (stripScheme plexLikeYoutubeUrl) = true ∧
    FindStreamFromUrl (fun o => decide (o ≠ .kStream_Plex)) plexLikeYoutubeUrl = none :=
  ⟨(FindStreamFromUrl_disabled_suppresses (fun o => decide (o ≠ .kStream_Plex))
      plexLikeYoutubeUrl).1 (stream_data.take 5) (stream_data.drop 6) plexEntry
      (by decide) (by decide) (by decide) (by decide),
   (FindStreamFromUrl_disabled_suppresses (fun o => decide (o ≠ .kStream_Plex))
      plexLikeYoutubeUrl).2 (by decide) (by decide)⟩

/-- C3 as stated fails: the YouTube pattern is found in `www.youtube.com/watch?v=plex.a.b`
and YouTube is enabled, yet the provider returned is Plex, not YouTube; and with Plex
disabled and YouTube enabled no provider is returned. -/
theorem FindStreamFromUrl_not_every_match :
    ¬ (∀ (settings : SettingsStore) (P : StreamData) (url : Str),
        P ∈ stream_data →
        regex_search P.url_pattern (stripScheme url) = true →
        (settings P.option_id = true → FindStreamFromUrl settings url = some P) ∧
        (settings P.option_id = false → FindStreamFromUrl settings url = none)) := by
  intro h
  have h1 := (h allEnabled youtubeEntry plexLikeYoutubeUrl (by decide) (by decide)).1 rfl
  revert h1
  decide

/-- C3, amended: for every provider `P` of the registry and every URL whose scheme-stripped
form is matched by the URL pattern of `P` and by the pattern of no earlier entry,
`FindStreamFromUrl` returns `P` when `P` is enabled and no provider when `P` is disabled,
whatever the flags of the other providers. -/
theorem FindStreamFromUrl_match_when_first (settings : SettingsStore) (url : Str)
    (before after : List StreamData) (P : StreamData)
    (hreg : stream_data = before ++ P :: after)
    (hP : regex_search P.url_pattern (stripScheme url) = true)
    (hfirst : ∀ Q ∈ before, regex_search Q.url_pattern (stripScheme url) = false) :
    (settings P.option_id = true → FindStreamFromUrl settings url = some P) ∧
    (settings P.option_id = false → FindStreamFromUrl settings url = none) := by
  rw [FindStreamFromUrl_of_first settings url before after P hreg hP hfirst]
  constructor <;> intro h <;> rw [h] <;> rfl

/-- C3, amended, instance: a YouTube address matched by no earlier pattern, YouTube
enabled and then disabled. -/
theorem FindStreamFromUrl_match_when_first_witness :
    (allEnabled youtubeEntry.option_id = true →
      FindStreamFromUrl allEnabled "https://www.youtube.com/watch?v=abc".toList
        = some youtubeEntry) ∧
    (allEnabled youtubeEntry.option_id = false →
      FindStreamFromUrl allEnabled "https://www.youtube.com/watch?v=abc".toList = none) :=
  FindStreamFromUrl_match_when_first allEnabled "https://www.youtube.com/watch?v=abc".toList
    (stream_data.take 10) [] youtubeEntry (by decide) (by decide) (by decide)

/-! ## Facts about the wrapper and the title extractor -/

/-- C4, the code at the failing input: AnimeLab is enabled and found for the address, the
title `Foo` does not match `AnimeLab - (.+)`, and the wrapper returns `true` with the title
`Foo` left in place instead of `false` with an empty title. -/
theorem GetTitle_keeps_unmatched_title :
    FindStreamFromUrl allEnabled animelabUrl = some animelabEntry ∧
    regex_match animelabEntry.title_pattern "Foo".toList = none ∧
    GetTitleFromStreamingMediaProvider allEnabled animelabUrl "Foo".toList
      = (true, "Foo".toList) := by
  decide

theorem GetTitle_flag (settings : SettingsStore) (url title : Str) :
    (GetTitleFromStreamingMediaProvider settings url title).1
      = !(GetTitleFromStreamingMediaProvider settings url title).2.isEmpty := rfl

theorem GetTitle_of_none (settings : SettingsStore) (url title : Str)
    (h : FindStreamFromUrl settings url = none) :
    GetTitleFromStreamingMediaProvider settings url title = (false, []) := by
  simp [GetTitleFromStreamingMediaProvider, h]

theorem GetTitle_of_some (settings : SettingsStore) (url title : Str) (P : StreamData)
    (h : FindStreamFromUrl settings url = some P) :
    GetTitleFromStreamingMediaProvider settings url title
      = (!(CleanStreamTitle P title).isEmpty, CleanStreamTitle P title) := by
  simp [GetTitleFromStreamingMediaProvider, h, WstrToStr, StrToWstr]

/-- What the wrapper does when a provider is found and its title pattern does not match:
the title stays as it was and the flag only tells whether it is non-empty. -/
theorem GetTitle_of_failed_extraction (settings : SettingsStore) (url title : Str)
    (P : StreamData) (h : FindStreamFromUrl settings url = some P)
    (hm : regex_match P.title_pattern title = none) :
    GetTitleFromStreamingMediaProvider settings url title = (!title.isEmpty, title) := by
  have hc : CleanStreamTitle P title = title := by
    simp [CleanStreamTitle, ApplyStreamTitleFormat, hm]
  rw [GetTitle_of_some settings url title P h, hc]

/-- C5: `GetTitleFromStreamingMediaProvider` returns `true` exactly when the title it
leaves behind is non-empty; whenever Plex is the provider found and the title is exactly
`Plex`, extraction succeeds with an empty result and the wrapper returns `false` with an
empty title. -/
theorem GetTitle_true_iff_nonempty (settings : SettingsStore) (url title : Str) :
    ((GetTitleFromStreamingMediaProvider settings url title).1 = true ↔
      (GetTitleFromStreamingMediaProvider settings url title).2 ≠ []) ∧
    (FindStreamFromUrl settings url = some plexEntry →
      ApplyStreamTitleFormat plexEntry "Plex".toList = (true, []) ∧
      GetTitleFromStreamingMediaProvider settings url "Plex".toList = (false, [])) := by
  constructor
  · rw [GetTitle_flag]
    cases (GetTitleFromStreamingMediaProvider settings url title).2 <;> simp
  · intro h
    rw [GetTitle_of_some settings url _ plexEntry h]
    decide

/-- C5, instance: a Plex web client address with every provider enabled. -/
theorem GetTitle_true_iff_nonempty_witness :
    FindStreamFromUrl allEnabled plexUrl = some plexEntry ∧
    ApplyStreamTitleFormat plexEntry "Plex".toList = (true, []) ∧
    GetTitleFromStreamingMediaProvider allEnabled plexUrl "Plex".toList = (false, []) :=
  ⟨by decide, (GetTitle_true_iff_nonempty allEnabled plexUrl []).2 (by decide)⟩

/-- C6: when `FindStreamFromUrl` returns no provider, `GetTitleFromStreamingMediaProvider`
clears the title and returns `false`, for every input title; this covers a URL matched by
no pattern, a first matching provider that is disabled, and a URL that is empty after
scheme stripping. -/
theorem GetTitle_no_provider (settings : SettingsStore) (url title : Str) :
    (FindStreamFromUrl settings url = none →
      GetTitleFromStreamingMediaProvider settings url title = (false, [])) ∧
    ((∀ Q ∈ stream_data, regex_search Q.url_pattern (stripScheme url) = false) →
      GetTitleFromStreamingMediaProvider settings url title = (false, [])) ∧
    (∀ (before after : List StreamData) (P : StreamData),
      stream_data = before ++ P :: after →
      regex_search P.url_pattern (stripScheme url) = true →
      (∀ Q ∈ before, regex_search Q.url_pattern (stripScheme url) = false) →
      settings P.option_id = false →
      GetTitleFromStreamingMediaProvider settings url title = (false, [])) ∧
    (stripScheme url = [] →
      GetTitleFromStreamingMediaProvider settings url title = (false, [])) := by
  refine ⟨GetTitle_of_none settings url title, ?_, ?_, ?_⟩
  · intro hno
    exact GetTitle_of_none settings url title (FindStreamFromUrl_of_none settings url hno)
  · intro before after P hreg hP hfirst hdis
    apply GetTitle_of_none
    rw [FindStreamFromUrl_of_first settings url before after P hreg hP hfirst, hdis]
    rfl
  · intro hs
    apply GetTitle_of_none
    apply FindStreamFromUrl_of_none
    rw [hs]
    exact url_pattern_needs_text

/-- C6, instances: an address matched by no pattern, the Plex-like YouTube address with
Plex disabled, and the bare scheme `https://`. -/
theorem GetTitle_no_provider_witness :
    GetTitleFromStreamingMediaProvider allEnabled "https://example.org/".toList "Foo".toList
      = (false, []) ∧
    GetTitleFromStreamingMediaProvider allEnabled "https://example.org/".toList "Foo".toList
      = (false, []) ∧
    GetTitleFromStreamingMediaProvider (fun o => decide (o ≠ .kStream_Plex))
      plexLikeYoutubeUrl "Foo".toList = (false, []) ∧
    GetTitleFromStreamingMediaProvider allEnabled "https://".toList "Foo".toList
      = (false, []) :=
  ⟨(GetTitle_no_provider allEnabled "https://example.org/".toList "Foo".toList).1 (by decide),
   (GetTitle_no_provider allEnabled "https://example.org/".toList "Foo".toList).2.1
      (by decide),
   (GetTitle_no_provider (fun o => decide (o ≠ .kStream_Plex)) plexLikeYoutubeUrl
      "Foo".toList).2.2.1 (stream_data.take 5) (stream_data.drop 6) plexEntry
      (by decide) (by decide) (by decide) (by decide),
   (GetTitle_no_provider allEnabled "https://".toList "Foo".toList).2.2.2 (by decide)⟩

theorem firstNonEmpty_all_empty (m : Caps) :
    ∀ (n i : Nat), (∀ j, i ≤ j → j < i + n → m.str j = []) → firstNonEmpty m i n = none := by
  intro n
  induction n with
  | zero => intro i _; rfl
  | succ n ih =>
      intro i h
      have h0 : m.str i = [] := h i (Nat.le_refl _) (by omega)
      have hrest : firstNonEmpty m (i + 1) n = none :=
        ih (i + 1) (fun j h1 h2 => h j (by omega) (by omega))
      simp [firstNonEmpty, h0, hrest]

/-- C7: `ApplyStreamTitleFormat` returns `true` and sets the title to the empty string
when the whole title matches the title pattern with every capture group empty (Plex with
`Plex`, YouTube with `YouTube`), and returns `false` leaving the title exactly as it was
when the whole title does not match (AnimeLab with `Foo`). -/
theorem ApplyStreamTitleFormat_empty_or_failed (P : StreamData) (title : Str) :
    (∀ m : Caps, regex_match P.title_pattern title = some m →
      (∀ i, 1 ≤ i → i ≤ P.title_pattern.mark_count → m.str i = []) →
      ApplyStreamTitleFormat P title = (true, [])) ∧
    (regex_match P.title_pattern title = none →
      ApplyStreamTitleFormat P title = (false, title)) ∧
    ApplyStreamTitleFormat plexEntry "Plex".toList = (true, []) ∧
    ApplyStreamTitleFormat youtubeEntry "YouTube".toList = (true, []) ∧
    ApplyStreamTitleFormat animelabEntry "Foo".toList = (false, "Foo".toList) := by
  refine ⟨?_, ?_, by decide, by decide, by decide⟩
  · intro m hm hall
    have hnone : firstNonEmpty m 1 P.title_pattern.mark_count = none :=
      firstNonEmpty_all_empty m _ 1 (fun j h1 h2 => hall j h1 (by omega))
    simp [ApplyStreamTitleFormat, hm, hnone]
  · intro hm
    simp [ApplyStreamTitleFormat, hm]

/-- C7, instances: the match of `Plex` against the Plex pattern has one capture group,
empty; `Foo` does not match the AnimeLab pattern. -/
theorem ApplyStreamTitleFormat_empty_or_failed_witness :
    ApplyStreamTitleFormat plexEntry "Plex".toList = (true, []) ∧
    ApplyStreamTitleFormat animelabEntry "Foo".toList = (false, "Foo".toList) :=
  ⟨(ApplyStreamTitleFormat_empty_or_failed plexEntry "Plex".toList).1 [] (by decide)
      (by intro i _ _; rfl),
   (ApplyStreamTitleFormat_empty_or_failed animelabEntry "Foo".toList).2.1 (by decide)⟩

/-! ## Facts about the matcher -/

theorem orTry_none_left {α : Type} (b : Option α) : orTry none b = b := rfl

theorem orTry_some_left {α : Type} (x : α) (b : Option α) : orTry (some x) b = some x := rfl

theorem orTry_eq_some {α : Type} {a b : Option α} {v : α} (h : orTry a b = some v) :
    a = some v ∨ b = some v := by
  cases a with
  | none => exact Or.inr h
  | some x => exact Or.inl h

theorem consumed_append (pre post : Str) : consumed (pre ++ post) post = pre := by
  simp [consumed]

theorem consumed_self_nil (s : Str) : consumed s [] = s := by
  simp [consumed]

theorem run_lit_append {α : Type} (w t : Str) (c : Caps) (k : Str → Caps → Option α) :
    (Regex.lit w).run (w ++ t) c k = k t c := by
  have h : w.isPrefixOf (w ++ t) = true := by
    rw [ List.isPrefixOf_iff_prefix]
    exact List.prefix_append w t
  simp [Regex.run, h]

theorem run_lit_eq_some {α : Type} {w s : Str} {c : Caps} {k : Str → Caps → Option α} {v : α}
    (h : (Regex.lit w).run s c k = some v) : ∃ t, s = w ++ t ∧ k t c = some v := by
  unfold Regex.run at h
  by_cases hp : w.isPrefixOf s = true
  · rw [if_pos hp] at h
    rw [ List.isPrefixOf_iff_prefix] at hp
    obtain ⟨t, ht⟩ := hp
    refine ⟨t, ht.symm, ?_⟩
    rw [← ht, List.drop_left] at h
    exact h
  · rw [if_neg hp] at h
    cases h

/-- A greedy repetition fails when the rest of the pattern fails at every point where the
repetition may stop. -/
theorem manyGo_eq_none {α : Type} (a : Atom) (lo : Nat) (hi : Option Nat)
    (k : Str → Option α) :
    ∀ (s : Str) (n : Nat),
      (∀ p q, s = p ++ q → (∀ c ∈ p, a.test c = true) → lo ≤ n + p.length → k q = none) →
      manyGo a lo hi k n s = none := by
  intro s
  induction s with
  | nil =>
      intro n h
      unfold manyGo
      split
      · exact h [] [] rfl (by simp) (by simpa)
      · rfl
  | cons x xs ih =>
      intro n h
      have hstay : (if lo ≤ n then k (x :: xs) else none) = none := by
        split
        · exact h [] (x :: xs) rfl (by simp) (by simpa)
        · rfl
      unfold manyGo
      split
      · rename_i hc
        have hx : a.test x = true := by
          simp only [Bool.and_eq_true] at hc
          exact hc.1
        have hmore : manyGo a lo hi k (n + 1) xs = none := by
          apply ih
          intro p q hs hp hlo
          apply h (x :: p) q (by rw [hs]; rfl)
          · intro c hcm
            rcases List.mem_cons.1 hcm with rfl | hcm
            · exact hx
            · exact hp c hcm
          · simp only [List.length_cons]; omega
        rw [hmore, hstay]
        rfl
      · exact hstay

/-- A greedy unbounded repetition stops after `pre` when the rest of the pattern succeeds
there and fails at every later point the repetition can reach. -/
theorem manyGo_greedy {α : Type} (a : Atom) (lo : Nat) (k : Str → Option α) (v : α)
    (post : Str) (hk : k post = some v)
    (hlater : ∀ p q, p ≠ [] → post = p ++ q → (∀ c ∈ p, a.test c = true) → k q = none) :
    ∀ (pre : Str) (n : Nat), (∀ c ∈ pre, a.test c = true) → lo ≤ n + pre.length →
      manyGo a lo none k n (pre ++ post) = some v := by
  intro pre
  induction pre with
  | nil =>
      intro n _ hlo
      have hlo : lo ≤ n := by simpa using hlo
      cases post with
      | nil => simp [manyGo, hlo, hk]
      | cons x xs =>
          show manyGo a lo none k n (x :: xs) = some v
          unfold manyGo
          split
          · rename_i hc
            have hx : a.test x = true := by
              simp only [Bool.and_eq_true] at hc
              exact hc.1
            have hmore : manyGo a lo none k (n + 1) xs = none := by
              apply manyGo_eq_none
              intro p q hs hp _
              apply hlater (x :: p) q (by simp) (by rw [hs]; rfl)
              intro c hcm
              rcases List.mem_cons.1 hcm with rfl | hcm
              · exact hx
              · exact hp c hcm
            rw [hmore, hk]
            rfl
          · exact hk
  | cons x xs ih =>
      intro n hpre hlo
      have hx : a.test x = true := hpre x (List.mem_cons_self _ _)
      have hrest : manyGo a lo none k (n + 1) (xs ++ post) = some v := by
        apply ih
        · intro c hcm
          exact hpre c (List.mem_cons_of_mem _ hcm)
        · simp only [List.length_cons] at hlo; omega
      show manyGo a lo none k n (x :: (xs ++ post)) = some v
      unfold manyGo
      simp [hx, hrest, orTry]

/-! ## Facts about the Crunchyroll and DAISUKI titles -/

theorem crunchyroll_title_pattern :
    crunchyrollEntry.title_pattern =
      .seq (.lit crunchyrollLead)
        (.alt (.seq (.group 1 (.many .any 1 none)) crunchyrollTail)
              (.group 2 (.many .any 1 none))) := rfl

theorem regex_match_eq (r : Regex) (s : Str) : regex_match r s = r.run s [] atEnd := rfl

theorem run_seq {α : Type} (r₁ r₂ : Regex) (s : Str) (c : Caps) (k : Str → Caps → Option α) :
    (Regex.seq r₁ r₂).run s c k = r₁.run s c (fun s' c' => r₂.run s' c' k) := rfl

theorem run_alt {α : Type} (r₁ r₂ : Regex) (s : Str) (c : Caps) (k : Str → Caps → Option α) :
    (Regex.alt r₁ r₂).run s c k = orTry (r₁.run s c k) (r₂.run s c k) := rfl

theorem run_group_many {α : Type} (i : Nat) (a : Atom) (lo : Nat) (hi : Option Nat) (s : Str)
    (c : Caps) (k : Str → Caps → Option α) :
    (Regex.group i (.many a lo hi)).run s c k
      = manyGo a lo hi (fun s' => k s' ((i, consumed s s') :: c)) 0 s := rfl

theorem atEnd_eq_some {rest : Str} {c v : Caps} (h : atEnd rest c = some v) :
    rest = [] ∧ v = c := by
  cases rest with
  | nil => exact ⟨rfl, (Option.some.inj h).symm⟩
  | cons x xs => cases h

theorem crunchyrollTail_eq_some {s : Str} {c v : Caps}
    (h : crunchyrollTail.run s c atEnd = some v) :
    v = c ∧ ∃ q ∈ crunchyrollQualifiers, s = dashSep ++ q := by
  unfold crunchyrollTail at h
  rw [run_seq] at h
  obtain ⟨t, hs, h⟩ := run_lit_eq_some h
  rw [run_alt] at h
  rcases orTry_eq_some h with h | h
  · obtain ⟨t', ht, h⟩ := run_lit_eq_some h
    obtain ⟨ht', hv⟩ := atEnd_eq_some h
    refine ⟨hv, "Movie - Movie".toList, by simp [crunchyrollQualifiers], ?_⟩
    rw [hs, ht, ht', List.append_nil]
  · rw [run_alt] at h
    rcases orTry_eq_some h with h | h
    · obtain ⟨t', ht, h⟩ := run_lit_eq_some h
      obtain ⟨ht', hv⟩ := atEnd_eq_some h
      refine ⟨hv, "ONA - ONA".toList, by simp [crunchyrollQualifiers], ?_⟩
      rw [hs, ht, ht', List.append_nil]
    · obtain ⟨t', ht, h⟩ := run_lit_eq_some h
      obtain ⟨ht', hv⟩ := atEnd_eq_some h
      refine ⟨hv, "OVA - OVA".toList, by simp [crunchyrollQualifiers], ?_⟩
      rw [hs, ht, ht', List.append_nil]

theorem crunchyrollTail_accepts {q : Str} (hq : q ∈ crunchyrollQualifiers) (c : Caps) :
    crunchyrollTail.run (dashSep ++ q) c atEnd = some c := by
  simp only [crunchyrollQualifiers, List.mem_cons, List.mem_singleton, List.not_mem_nil,
    or_false] at hq
  rcases hq with rfl | rfl | rfl <;> rfl

theorem crunchyrollQualifiers_apart :
    ∀ q ∈ crunchyrollQualifiers, ∀ q' ∈ crunchyrollQualifiers, ∀ n < 17, 0 < n →
      (dashSep ++ q).drop n ≠ dashSep ++ q' := by
  decide

theorem crunchyrollQualifiers_short :
    ∀ q ∈ crunchyrollQualifiers, (dashSep ++ q).length < 17 := by
  decide

theorem any_test_of_not_terminator {c : Char} (h : c ≠ '\n' ∧ c ≠ '\r') :
    Atom.any.test c = true := by
  simp [Atom.test, h.1, h.2]

theorem crunchyroll_regex_match (X : Str) :
    regex_match crunchyrollEntry.title_pattern (crunchyrollLead ++ X)
      = orTry
          (manyGo .any 1 none (fun s' => crunchyrollTail.run s' [(1, consumed X s')] atEnd) 0 X)
          (manyGo .any 1 none (fun s' => atEnd s' [(2, consumed X s')]) 0 X) := by
  rw [regex_match_eq, crunchyroll_title_pattern, run_seq, run_lit_append, run_alt, run_seq,
    run_group_many, run_group_many]

theorem isEmpty_eq_false_of_ne {s : Str} (h : s ≠ []) : s.isEmpty = false := by
  cases s with
  | nil => exact absurd rfl h
  | cons x xs => rfl

theorem ApplyStreamTitleFormat_crunchyroll_group1 (T Y : Str) (hY : Y ≠ [])
    (h : regex_match crunchyrollEntry.title_pattern T = some [(1, Y)]) :
    ApplyStreamTitleFormat crunchyrollEntry T = (true, Y) := by
  have hc : crunchyrollEntry.title_pattern.mark_count = 2 := rfl
  simp [ApplyStreamTitleFormat, h, hc, firstNonEmpty, Caps.str, List.lookup,
    isEmpty_eq_false_of_ne hY]

theorem ApplyStreamTitleFormat_crunchyroll_group2 (T X : Str) (hX : X ≠ [])
    (h : regex_match crunchyrollEntry.title_pattern T = some [(2, X)]) :
    ApplyStreamTitleFormat crunchyrollEntry T = (true, X) := by
  have hc : crunchyrollEntry.title_pattern.mark_count = 2 := rfl
  simp [ApplyStreamTitleFormat, h, hc, firstNonEmpty, Caps.str, List.lookup,
    isEmpty_eq_false_of_ne hX]

theorem CleanStreamTitle_crunchyroll_eq (T : Str) :
    CleanStreamTitle crunchyrollEntry T = (ApplyStreamTitleFormat crunchyrollEntry T).2 := by
  unfold CleanStreamTitle
  have hid : crunchyrollEntry.id = Stream.Crunchyroll := rfl
  rcases ApplyStreamTitleFormat crunchyrollEntry T with ⟨b, t⟩
  cases b <;> simp [hid]

/-- C8: first-non-empty-group rule on the Crunchyroll title pattern. For every non-empty
`X` without line terminators, the title `Crunchyroll - Watch ` followed by `X` is extracted
with success; the cleaned title is `Y` when `X` is `Y`, then ` - `, then one of the
qualifiers `Movie - Movie`, `ONA - ONA`, `OVA - OVA`, with `Y` non-empty (group 1), and
exactly `X` otherwise (group 2 alone); `CleanStreamTitle` applies no further
post-processing to it. -/
theorem CleanStreamTitle_crunchyroll_groups (X : Str) (hne : X ≠ [])
    (hlt : ∀ c ∈ X, c ≠ '\n' ∧ c ≠ '\r') :
    (∀ Y q : Str, Y ≠ [] → q ∈ crunchyrollQualifiers → X = Y ++ dashSep ++ q →
      ApplyStreamTitleFormat crunchyrollEntry (crunchyrollLead ++ X) = (true, Y) ∧
      CleanStreamTitle crunchyrollEntry (crunchyrollLead ++ X) = Y) ∧
    ((¬ ∃ Y q : Str, Y ≠ [] ∧ q ∈ crunchyrollQualifiers ∧ X = Y ++ dashSep ++ q) →
      ApplyStreamTitleFormat crunchyrollEntry (crunchyrollLead ++ X) = (true, X) ∧
      CleanStreamTitle crunchyrollEntry (crunchyrollLead ++ X) = X) := by
  constructor
  · intro Y q hY hq hX
    rw [List.append_assoc] at hX
    have hm : regex_match crunchyrollEntry.title_pattern (crunchyrollLead ++ X)
        = some [(1, Y)] := by
      rw [crunchyroll_regex_match, hX]
      have hgo := manyGo_greedy .any 1
        (fun s' => crunchyrollTail.run s' [(1, consumed (Y ++ (dashSep ++ q)) s')] atEnd)
        [(1, Y)] (dashSep ++ q)
        (by
          show crunchyrollTail.run (dashSep ++ q) _ atEnd = _
          rw [crunchyrollTail_accepts hq, consumed_append])
        (by
          intro p q' hp hsplit _
          cases hrun : crunchyrollTail.run q' [(1, consumed (Y ++ (dashSep ++ q)) q')] atEnd with
          | none => exact hrun
          | some v =>
              exfalso
              obtain ⟨_, q₂, hq₂, hq'⟩ := crunchyrollTail_eq_some hrun
              have hlen := congrArg List.length hsplit
              have hshort := crunchyrollQualifiers_short q hq
              have hpos : 0 < p.length := List.length_pos.2 hp
              simp only [List.length_append] at hlen hshort
              have hdrop : (dashSep ++ q).drop p.length = dashSep ++ q₂ := by
                rw [hsplit, List.drop_left, hq']
              exact crunchyrollQualifiers_apart q hq q₂ hq₂ p.length (by omega) hpos hdrop)
        Y 0
        (by
          intro c hc
          apply any_test_of_not_terminator
          apply hlt
          rw [hX]
          exact List.mem_append_left _ hc)
        (by
          have : 0 < Y.length := List.length_pos.2 hY
          omega)
      rw [hgo]
      rfl
    have ha := ApplyStreamTitleFormat_crunchyroll_group1 _ Y hY hm
    exact ⟨ha, by rw [CleanStreamTitle_crunchyroll_eq, ha]⟩
  · intro hno
    have hm : regex_match crunchyrollEntry.title_pattern (crunchyrollLead ++ X)
        = some [(2, X)] := by
      rw [crunchyroll_regex_match]
      have h1 : manyGo .any 1 none
          (fun s' => crunchyrollTail.run s' [(1, consumed X s')] atEnd) 0 X = none := by
        apply manyGo_eq_none
        intro p q' hsplit _ hlo
        cases hrun : crunchyrollTail.run q' [(1, consumed X q')] atEnd with
        | none => rfl
        | some v =>
            exfalso
            obtain ⟨_, q₂, hq₂, hq'⟩ := crunchyrollTail_eq_some hrun
            apply hno
            refine ⟨p, q₂, ?_, hq₂, ?_⟩
            · intro hp
              rw [hp] at hlo
              simp at hlo
            · rw [hsplit, hq', List.append_assoc]
      have h2 := manyGo_greedy .any 1 (fun s' => atEnd s' [(2, consumed X s')]) [(2, X)] []
        (by simp [atEnd, consumed_self_nil])
        (by
          intro p q' hp hsplit _
          have := congrArg List.length hsplit
          have hpos : 0 < p.length := List.length_pos.2 hp
          simp at this
          omega)
        X 0
        (fun c hc => any_test_of_not_terminator (hlt c hc))
        (by
          have : 0 < X.length := List.length_pos.2 hne
          omega)
      rw [List.append_nil] at h2
      rw [h1, h2]
      rfl
    have ha := ApplyStreamTitleFormat_crunchyroll_group2 _ X hne hm
    exact ⟨ha, by rw [CleanStreamTitle_crunchyroll_eq, ha]⟩

/-- C8, instances: `Naruto - Movie - Movie` gives group 1, `Naruto`; the bare `Naruto`
gives group 2. -/
theorem CleanStreamTitle_crunchyroll_groups_witness :
    (ApplyStreamTitleFormat crunchyrollEntry
        (crunchyrollLead ++ "Naruto - Movie - Movie".toList) = (true, "Naruto".toList) ∧
      CleanStreamTitle crunchyrollEntry
        (crunchyrollLead ++ "Naruto - Movie - Movie".toList) = "Naruto".toList) ∧
    (ApplyStreamTitleFormat crunchyrollEntry
        (crunchyrollLead ++ "Naruto".toList) = (true, "Naruto".toList) ∧
      CleanStreamTitle crunchyrollEntry
        (crunchyrollLead ++ "Naruto".toList) = "Naruto".toList) :=
  ⟨(CleanStreamTitle_crunchyroll_groups "Naruto - Movie - Movie".toList (by decide)
      (by decide)).1 "Naruto".toList "Movie - Movie".toList (by decide) (by decide)
      (by decide),
   (CleanStreamTitle_crunchyroll_groups "Naruto".toList (by decide) (by decide)).2
      (by
        rintro ⟨Y, q, _, hq, h⟩
        have hl := congrArg List.length h
        have hq9 : ∀ q ∈ crunchyrollQualifiers, 9 ≤ q.length := by decide
        have := hq9 q hq
        simp only [List.length_append] at hl
        have h6 : "Naruto".toList.length = 6 := rfl
        omega)⟩

/-- C9 as stated fails: the title `Crunchyroll - Watch Naruto - Movie - Movie - 1` is not
cleaned to `Naruto`. -/
theorem CleanStreamTitle_crunchyroll_numbered :
    CleanStreamTitle crunchyrollEntry "Crunchyroll - Watch Naruto - Movie - Movie - 1".toList
      ≠ "Naruto".toList := by
  decide

/-- C9, amended: for the Crunchyroll provider the title
`Crunchyroll - Watch Naruto - Movie - Movie`, which ends with the qualifier, is cleaned to
exactly `Naruto`; the title `Crunchyroll - Watch Naruto - Movie - Movie - 1`, which does
not end with it, is cleaned to `Naruto - Movie - Movie - 1`. -/
theorem CleanStreamTitle_crunchyroll_movie :
    CleanStreamTitle crunchyrollEntry "Crunchyroll - Watch Naruto - Movie - Movie".toList
      = "Naruto".toList ∧
    CleanStreamTitle crunchyrollEntry "Crunchyroll - Watch Naruto - Movie - Movie - 1".toList
      = "Naruto - Movie - Movie - 1".toList := by
  decide

theorem daisukiPattern_eq :
    daisukiPattern =
      .seq (.group 1 (.seq (.lit hashMark) (.seq (.many .digit 1 none)
              (.seq (.lit blank) (.many .any 1 none)))))
        (.seq (.lit dashSep) (.group 2 (.many .any 1 none))) := rfl

theorem daisuki_title_pattern :
    daisukiEntry.title_pattern = .seq (.group 1 (.many .any 1 none)) (.lit daisukiEnd) := rfl

theorem run_group {α : Type} (i : Nat) (r : Regex) (s : Str) (c : Caps)
    (k : Str → Caps → Option α) :
    (Regex.group i r).run s c k = r.run s c (fun s' c' => k s' ((i, consumed s s') :: c')) :=
  rfl

theorem run_many {α : Type} (a : Atom) (lo : Nat) (hi : Option Nat) (s : Str) (c : Caps)
    (k : Str → Caps → Option α) :
    (Regex.many a lo hi).run s c k = manyGo a lo hi (fun s' => k s' c) 0 s := rfl

theorem digit_test_iff (c : Char) : Atom.digit.test c = true ↔ '0' ≤ c ∧ c ≤ '9' := by
  simp [Atom.test, Atom.digit]

theorem dashSep_not_later (S p t : Str) (hS : '-' ∉ S) (hp : p ≠ [])
    (h : dashSep ++ S = p ++ (dashSep ++ t)) : False := by
  have hd : dashSep = [' ', '-', ' '] := rfl
  rw [hd] at h
  cases p with
  | nil => exact hp rfl
  | cons a p₁ =>
      cases p₁ with
      | nil => simp at h
      | cons b p₂ =>
          simp only [List.cons_append, List.nil_append, List.cons.injEq] at h
          apply hS
          have hmem : '-' ∈ ' ' :: S := by
            rw [h.2.2]
            simp
          simpa using hmem

theorem daisukiPattern_matchAt (D R S : Str) (hD : D ≠ [])
    (hDd : ∀ c ∈ D, '0' ≤ c ∧ c ≤ '9') (hR : R ≠ []) (hS : S ≠ [])
    (hRc : ∀ c ∈ R, c ≠ '\n' ∧ c ≠ '\r') (hSc : ∀ c ∈ S, c ≠ '-' ∧ c ≠ '\n' ∧ c ≠ '\r') :
    matchAt daisukiPattern (hashMark ++ (D ++ (blank ++ (R ++ (dashSep ++ S)))))
      = some ([], [(2, S), (1, hashMark ++ (D ++ (blank ++ R)))]) := by
  unfold matchAt
  rw [daisukiPattern_eq]
  simp only [run_seq, run_group, run_lit_append, run_many]
  have hfinal : ∀ c' : Caps,
      manyGo Atom.any 1 none (fun s₁ => some (s₁, (2, consumed S s₁) :: c')) 0 S
        = some ([], (2, S) :: c') := by
    intro c'
    have h := manyGo_greedy .any 1 (fun s₁ => some (s₁, (2, consumed S s₁) :: c'))
      ([], (2, S) :: c') [] (by simp [consumed_self_nil])
      (by
        intro p q hp hs
        simp at hs
        exact absurd hs.1 hp)
      S 0 (fun c hc => any_test_of_not_terminator (hSc c hc).2)
      (by
        have := List.length_pos.2 hS
        omega)
    rwa [List.append_nil] at h
  have hmid : ∀ (E : Str) (c' : Caps),
      manyGo Atom.any 1 none
        (fun s' => (Regex.lit dashSep).run s' ((1, consumed E s') :: c') fun s' c' =>
          manyGo Atom.any 1 none (fun s₁ => some (s₁, (2, consumed s' s₁) :: c')) 0 s')
        0 (R ++ (dashSep ++ S))
        = some ([], (2, S) :: (1, consumed E (dashSep ++ S)) :: c') := by
    intro E c'
    refine manyGo_greedy .any 1 _ _ (dashSep ++ S) ?_ ?_ R 0
      (fun c hc => any_test_of_not_terminator (hRc c hc)) ?_
    · simp only [run_lit_append]
      rw [hfinal]
    · intro p q hp hs _
      by_contra hne
      obtain ⟨v, hv⟩ := Option.ne_none_iff_exists'.1 hne
      obtain ⟨t, ht, _⟩ := run_lit_eq_some hv
      rw [ht] at hs
      exact dashSep_not_later S p t (fun hm => (hSc _ hm).1 rfl) hp hs
    · have := List.length_pos.2 hR
      omega
  refine manyGo_greedy .digit 1 _ _ (blank ++ (R ++ (dashSep ++ S))) ?_ ?_ D 0
    (fun c hc => (digit_test_iff c).2 (hDd c hc)) ?_
  · simp only [run_lit_append]
    rw [hmid]
    have hE : hashMark ++ (D ++ (blank ++ (R ++ (dashSep ++ S))))
        = (hashMark ++ (D ++ (blank ++ R))) ++ (dashSep ++ S) := by
      simp only [List.append_assoc]
    rw [hE, consumed_append]
  · intro p q hp hs hpass
    exfalso
    cases p with
    | nil => exact hp rfl
    | cons a p₁ =>
        have ha : a = ' ' := by
          have hb : blank = [' '] := rfl
          rw [hb] at hs
          simp only [List.cons_append, List.nil_append, List.cons.injEq] at hs
          exact hs.1.symm
        have := hpass a (List.mem_cons_self _ _)
        rw [ha] at this
        revert this
        decide
  · have := List.length_pos.2 hD
    omega

theorem run_lit_self {α : Type} (w : Str) (c : Caps) (k : Str → Caps → Option α) :
    (Regex.lit w).run w c k = k [] c := by
  have h := run_lit_append w [] c k
  rwa [List.append_nil] at h

/-- A title pattern of the shape `(.+)tail` matches `E ++ tail` as a whole, with `E` as
its first capture group. -/
theorem regex_match_plus_lit (E tail : Str) (hE : E ≠ [])
    (hpass : ∀ c ∈ E, c ≠ '\n' ∧ c ≠ '\r') :
    regex_match (.seq (.group 1 (.many .any 1 none)) (.lit tail)) (E ++ tail)
      = some [(1, E)] := by
  rw [regex_match_eq, run_seq, run_group_many]
  refine manyGo_greedy .any 1 _ _ tail ?_ ?_ E 0
    (fun c hc => any_test_of_not_terminator (hpass c hc)) ?_
  · simp only [run_lit_self, consumed_append]
    rfl
  · intro p q hp hs _
    by_contra hne
    obtain ⟨v, hv⟩ := Option.ne_none_iff_exists'.1 hne
    obtain ⟨t, ht, _⟩ := run_lit_eq_some hv
    have hl := congrArg List.length hs
    rw [ht] at hl
    simp only [List.length_append] at hl
    have := List.length_pos.2 hp
    omega
  · have := List.length_pos.2 hE
    omega

theorem replaceGo_skip_all (r : Regex) (fmt : List Fmt) :
    ∀ cs : Str, replaceGo r fmt cs cs.length = replaceGo r fmt [] 0 := by
  intro cs
  induction cs with
  | nil => rfl
  | cons c cs ih =>
      show replaceGo r fmt cs cs.length = _
      exact ih

/-- The episode-tag swap performed by `std::regex_replace` on text of the shape
`#D R - S`. -/
theorem regex_replace_daisuki (D R S : Str) (hD : D ≠ [])
    (hDd : ∀ c ∈ D, '0' ≤ c ∧ c ≤ '9') (hR : R ≠ []) (hS : S ≠ [])
    (hRc : ∀ c ∈ R, c ≠ '\n' ∧ c ≠ '\r') (hSc : ∀ c ∈ S, c ≠ '-' ∧ c ≠ '\n' ∧ c ≠ '\r') :
    regex_replace (hashMark ++ (D ++ (blank ++ (R ++ (dashSep ++ S))))) daisukiPattern
        [.sub 2, .text " - ".toList, .sub 1]
      = S ++ (dashSep ++ (hashMark ++ (D ++ (blank ++ R)))) := by
  have hm := daisukiPattern_matchAt D R S hD hDd hR hS hRc hSc
  have hcons : hashMark ++ (D ++ (blank ++ (R ++ (dashSep ++ S))))
      = '#' :: (D ++ (blank ++ (R ++ (dashSep ++ S)))) := rfl
  rw [hcons] at hm ⊢
  have hend : replaceGo daisukiPattern [.sub 2, .text " - ".toList, .sub 1] [] 0 = [] := by
    decide
  unfold regex_replace
  rw [replaceGo, hm]
  simp only [List.length_nil, List.length_cons, Nat.zero_lt_succ, if_true, Nat.sub_zero]
  rw [replaceGo_skip_all, hend]
  simp [format, Caps.str, List.lookup, dashSep]

theorem CleanStreamTitle_daisuki_eq (T E : Str)
    (h : ApplyStreamTitleFormat daisukiEntry T = (true, E)) :
    CleanStreamTitle daisukiEntry T
      = regex_replace E daisukiPattern [.sub 2, .text " - ".toList, .sub 1] := by
  unfold CleanStreamTitle
  have hid : daisukiEntry.id = Stream.Daisuki := rfl
  rw [h]
  simp [hid]

theorem ApplyStreamTitleFormat_daisuki (E : Str) (hE : E ≠ [])
    (hpass : ∀ c ∈ E, c ≠ '\n' ∧ c ≠ '\r') :
    ApplyStreamTitleFormat daisukiEntry (E ++ daisukiEnd) = (true, E) := by
  have hm : regex_match daisukiEntry.title_pattern (E ++ daisukiEnd) = some [(1, E)] := by
    rw [daisuki_title_pattern]
    exact regex_match_plus_lit E daisukiEnd hE hpass
  have hc : daisukiEntry.title_pattern.mark_count = 1 := rfl
  simp [ApplyStreamTitleFormat, hm, hc, firstNonEmpty, Caps.str, List.lookup,
    isEmpty_eq_false_of_ne hE]

/-- C10: episode-tag swap for DAISUKI. For every non-empty digit string `D` and all
non-empty `R` and `S` without `-` and without line terminators, the title `#D R - S - DAISUKI`
is cleaned to `S - #D R`. -/
theorem CleanStreamTitle_daisuki_swap (D R S : Str) (hD : D ≠ [])
    (hDd : ∀ c ∈ D, '0' ≤ c ∧ c ≤ '9') (hR : R ≠ []) (hS : S ≠ [])
    (hRc : ∀ c ∈ R, c ≠ '-' ∧ c ≠ '\n' ∧ c ≠ '\r')
    (hSc : ∀ c ∈ S, c ≠ '-' ∧ c ≠ '\n' ∧ c ≠ '\r') :
    CleanStreamTitle daisukiEntry
        (hashMark ++ D ++ blank ++ R ++ dashSep ++ S ++ daisukiEnd)
      = S ++ dashSep ++ hashMark ++ D ++ blank ++ R := by
  have hdig : ∀ c : Char, '0' ≤ c ∧ c ≤ '9' → c ≠ '\n' ∧ c ≠ '\r' := by
    intro c hc
    constructor <;> rintro rfl <;> revert hc <;> decide
  have hpass : ∀ c ∈ hashMark ++ (D ++ (blank ++ (R ++ (dashSep ++ S)))),
      c ≠ '\n' ∧ c ≠ '\r' := by
    intro c hc
    simp only [List.mem_append] at hc
    rcases hc with hc | hc | hc | hc | hc | hc
    · revert c; decide
    · exact hdig c (hDd c hc)
    · revert c; decide
    · exact (hRc c hc).2
    · revert c; decide
    · exact (hSc c hc).2
  have hne : hashMark ++ (D ++ (blank ++ (R ++ (dashSep ++ S)))) ≠ [] := by
    intro h
    cases h
  have ha := ApplyStreamTitleFormat_daisuki _ hne hpass
  have hT : hashMark ++ D ++ blank ++ R ++ dashSep ++ S ++ daisukiEnd
      = (hashMark ++ (D ++ (blank ++ (R ++ (dashSep ++ S))))) ++ daisukiEnd := by
    simp only [List.append_assoc]
  rw [hT, CleanStreamTitle_daisuki_eq _ _ ha,
    regex_replace_daisuki D R S hD hDd hR hS (fun c hc => (hRc c hc).2) hSc]
  simp only [List.append_assoc]

/-- C10, instance: `#12 Episode Name - My Show - DAISUKI` becomes
`My Show - #12 Episode Name`. -/
theorem CleanStreamTitle_daisuki_swap_witness :
    CleanStreamTitle daisukiEntry "#12 Episode Name - My Show - DAISUKI".toList
      = "My Show - #12 Episode Name".toList :=
  CleanStreamTitle_daisuki_swap "12".toList "Episode Name".toList "My Show".toList
    (by decide) (by decide) (by decide) (by decide) (by decide) (by decide)

/-! ## Facts about scheme stripping and the noise normalizer -/

theorem EraseRight_nil (x : Str) : EraseRight [] x = [] := by
  unfold EraseRight
  split <;> simp

theorem contains_common_titles (t : Str) :
    common_titles.contains t = decide (t ∈ common_titles) := by
  simp [List.contains]

theorem IgnoreCommonWebBrowserTitles_eq (parse : UrlParser) (url t : Str) :
    IgnoreCommonWebBrowserTitles parse url t
      = if isIgnoredTitle (parse url).host t then [] else t := by
  have e1 : StartsWith [] "http://".toList = false := rfl
  have e2 : StartsWith [] "https://".toList = false := rfl
  have e3 : decide (([] : Str) ∈ common_titles) = false := by decide
  have e4 : EndsWith [] " - Network error".toList = false := by decide
  unfold IgnoreCommonWebBrowserTitles isIgnoredTitle
  simp only [IgnoreCommonWebBrowserTitles.common_suffixes, clearOnSuffix, httpScheme,
    httpsScheme, networkError, contains_common_titles]
  cases h1 : (!(parse url).host.isEmpty && StartsWith t (parse url).host) with
  | true =>
      simp only [e1, e2, e3, e4, Bool.or_false, Bool.or_true, Bool.false_or,
        Bool.true_or, if_true, if_false, Bool.false_eq_true, Bool.or_self]
  | false =>
      simp only [e1, e2, e3, e4, Bool.or_false, Bool.or_true, Bool.false_or,
        Bool.true_or, if_true, if_false, Bool.false_eq_true, Bool.or_self]
      cases h2 : StartsWith t "http://".toList with
      | true =>
          simp only [e1, e2, e3, e4, Bool.or_false, Bool.or_true, Bool.false_or,
            Bool.true_or, if_true, if_false, Bool.false_eq_true, Bool.or_self]
      | false =>
          simp only [e1, e2, e3, e4, Bool.or_false, Bool.or_true, Bool.false_or,
            Bool.true_or, if_true, if_false, Bool.false_eq_true, Bool.or_self]
          cases h3 : StartsWith t "https://".toList with
          | true =>
              simp only [e1, e2, e3, e4, Bool.or_false, Bool.or_true, Bool.false_or,
                Bool.true_or, if_true, if_false, Bool.false_eq_true, Bool.or_self]
          | false =>
              simp only [e1, e2, e3, e4, Bool.or_false, Bool.or_true, Bool.false_or,
                Bool.true_or, if_true, if_false, Bool.false_eq_true, Bool.or_self]
              cases h4 : decide (t ∈ common_titles) with
              | true =>
                  simp only [e1, e2, e3, e4, Bool.or_false, Bool.or_true, Bool.false_or,
                    Bool.true_or, if_true, if_false, Bool.false_eq_true, Bool.or_self]
              | false =>
                  simp only [e1, e2, e3, e4, Bool.or_false, Bool.or_true, Bool.false_or,
                    Bool.true_or, if_true, if_false, Bool.false_eq_true, Bool.or_self]

theorem NormalizeWebBrowserTitle_eq (parse : UrlParser) (url t : Str) :
    NormalizeWebBrowserTitle parse url t
      = if isIgnoredTitle (parse url).host t then [] else EraseRight t audioPlaying := by
  unfold NormalizeWebBrowserTitle RemoveCommonWebBrowserAffixes
  simp only [RemoveCommonWebBrowserAffixes.common_suffixes, List.foldl,
    IgnoreCommonWebBrowserTitles_eq]
  split
  · exact EraseRight_nil _
  · rfl

theorem EraseRight_append (p a : Str) : EraseRight (p ++ a) a = p := by
  have h : EndsWith (p ++ a) a = true := by
    unfold EndsWith
    rw [List.isSuffixOf_iff_suffix]
    exact List.suffix_append p a
  unfold EraseRight
  rw [if_pos h]
  simp

theorem EndsWith_split {t a : Str} (h : EndsWith t a = true) : ∃ p, t = p ++ a := by
  unfold EndsWith at h
  rw [List.isSuffixOf_iff_suffix] at h
  obtain ⟨p, hp⟩ := h
  exact ⟨p, hp.symm⟩

theorem EraseRight_of_not_endsWith {t a : Str} (h : EndsWith t a = false) :
    EraseRight t a = t := by
  unfold EraseRight
  rw [h]
  rfl

theorem NormalizeWebBrowserTitle_nil (parse : UrlParser) (url : Str) :
    NormalizeWebBrowserTitle parse url [] = [] := by
  rw [NormalizeWebBrowserTitle_eq]
  split
  · rfl
  · exact EraseRight_nil _

/-- C11 as stated fails: stripping `http://http://x` gives `http://x`, and stripping that
again gives `x`. -/
theorem stripScheme_not_idempotent :
    stripScheme "http://http://x".toList = "http://x".toList ∧
    stripScheme (stripScheme "http://http://x".toList) = "x".toList ∧
    stripScheme (stripScheme "http://http://x".toList)
      ≠ stripScheme "http://http://x".toList := by
  decide

theorem EraseLeft_of_not_startsWith {s p : Str} (h : StartsWith s p = false) :
    EraseLeft s p = s := by
  unfold EraseLeft
  unfold StartsWith at h
  rw [h]
  rfl

/-- C11, amended: scheme stripping is idempotent on every URL whose stripped form does not
itself begin with `http://` or `https://`: stripping such a result again leaves it
unchanged. -/
theorem stripScheme_idempotent_of_stripped (u : Str)
    (h1 : StartsWith (stripScheme u) httpScheme = false)
    (h2 : StartsWith (stripScheme u) httpsScheme = false) :
    stripScheme (stripScheme u) = stripScheme u := by
  have e : ∀ s : Str, stripScheme s = EraseLeft (EraseLeft s httpScheme) httpsScheme :=
    fun _ => rfl
  rw [e (stripScheme u), EraseLeft_of_not_startsWith h1, EraseLeft_of_not_startsWith h2]

/-- C11, amended, instance: `https://example.org/`. -/
theorem stripScheme_idempotent_of_stripped_witness :
    stripScheme (stripScheme "https://example.org/".toList)
      = stripScheme "https://example.org/".toList :=
  stripScheme_idempotent_of_stripped "https://example.org/".toList (by decide) (by decide)

/-- C12: `NormalizeWebBrowserTitle` equals the reference written from the specification,
for every URL (with the host component returned by the URL parser) and every title; a
title `example.com` with a URL whose host is `example.com` normalizes to the empty
string. -/
theorem NormalizeWebBrowserTitle_refines (parse : UrlParser) (url t : Str) :
    NormalizeWebBrowserTitle parse url t
      = NormalizeWebBrowserTitle_reference (parse url).host t ∧
    ((parse url).host = "example.com".toList →
      NormalizeWebBrowserTitle parse url "example.com".toList = []) := by
  constructor
  · rw [NormalizeWebBrowserTitle_eq]
    rfl
  · intro h
    rw [NormalizeWebBrowserTitle_eq, h]
    decide

/-- C12, instance: a parser that reports the host `example.com`. -/
theorem NormalizeWebBrowserTitle_refines_witness :
    NormalizeWebBrowserTitle (hostParser "example.com".toList)
      "https://example.com/path".toList "example.com".toList = [] :=
  (NormalizeWebBrowserTitle_refines (hostParser "example.com".toList)
    "https://example.com/path".toList "example.com".toList).2 rfl

/-- C13: a placeholder title is cleared whatever the URL and whatever host the parser
reports for it. -/
theorem NormalizeWebBrowserTitle_placeholder (parse : UrlParser) (url t : Str)
    (h : t ∈ common_titles) : NormalizeWebBrowserTitle parse url t = [] := by
  have hi : isIgnoredTitle (parse url).host t = true := by
    simp [isIgnoredTitle, h]
  rw [NormalizeWebBrowserTitle_eq, hi]
  rfl

/-- C13, instance: `New Tab` with an address without host. -/
theorem NormalizeWebBrowserTitle_placeholder_witness :
    NormalizeWebBrowserTitle (hostParser []) "about:blank".toList "New Tab".toList = [] :=
  NormalizeWebBrowserTitle_placeholder (hostParser []) "about:blank".toList "New Tab".toList
    (by decide)

/-- C18 as stated fails: `New Tab - Audio playing` normalizes to `New Tab`, which is a
placeholder title and normalizes to the empty string; `x - Audio playing - Audio playing`
normalizes to a title that still ends in ` - Audio playing`. -/
theorem NormalizeWebBrowserTitle_not_idempotent :
    NormalizeWebBrowserTitle (hostParser []) [] "New Tab - Audio playing".toList
      = "New Tab".toList ∧
    "New Tab".toList ∈ common_titles ∧
    NormalizeWebBrowserTitle (hostParser []) []
        (NormalizeWebBrowserTitle (hostParser []) [] "New Tab - Audio playing".toList)
      ≠ NormalizeWebBrowserTitle (hostParser []) [] "New Tab - Audio playing".toList ∧
    EndsWith (NormalizeWebBrowserTitle (hostParser []) []
        "x - Audio playing - Audio playing".toList) audioPlaying = true := by
  decide

/-- C19: `NormalizeWebBrowserTitle` only removes text from the end: its result is a
beginning of the title, namely the empty string, the title itself, or the title without
its trailing ` - Audio playing`. -/
theorem NormalizeWebBrowserTitle_is_beginning (parse : UrlParser) (url t : Str) :
    NormalizeWebBrowserTitle parse url t <+: t ∧
    (NormalizeWebBrowserTitle parse url t = [] ∨
      NormalizeWebBrowserTitle parse url t = t ∨
      t = NormalizeWebBrowserTitle parse url t ++ audioPlaying) := by
  rw [NormalizeWebBrowserTitle_eq]
  split
  · exact ⟨List.nil_prefix, Or.inl rfl⟩
  · cases he : EndsWith t audioPlaying with
    | false =>
        rw [EraseRight_of_not_endsWith he]
        exact ⟨List.prefix_refl t, Or.inr (Or.inl rfl)⟩
    | true =>
        obtain ⟨p, hp⟩ := EndsWith_split he
        rw [hp, EraseRight_append]
        exact ⟨List.prefix_append p audioPlaying, Or.inr (Or.inr rfl)⟩

/-! ## Facts about the VRV and Wakanim titles -/

theorem isPrefixOf_eq_true_iff (w s : Str) : w.isPrefixOf s = true ↔ ∃ t, s = w ++ t := by
  rw [ List.isPrefixOf_iff_prefix]
  constructor
  · rintro ⟨t, ht⟩
    exact ⟨t, ht.symm⟩
  · rintro ⟨t, ht⟩
    exact ⟨t, ht.symm⟩

theorem firstReplaced_replaceFirst (f r : Str) (hf : f ≠ []) :
    ∀ s : Str, FirstReplaced f r s (replaceFirst f r s) := by
  intro s
  induction s with
  | nil =>
      left
      refine ⟨?_, rfl⟩
      rintro ⟨a, b, h⟩
      exact hf (List.append_eq_nil.1 (List.append_eq_nil.1 h).1).2
  | cons c cs ih =>
      unfold replaceFirst
      by_cases hp : f.isPrefixOf (c :: cs) = true
      · rw [if_pos hp]
        obtain ⟨B, hB⟩ := (isPrefixOf_eq_true_iff f (c :: cs)).1 hp
        right
        refine ⟨[], B, by simpa using hB, fun A' B' _ => Nat.zero_le _, ?_⟩
        rw [hB, List.drop_left]
        rfl
      · rw [if_neg hp]
        rcases ih with ⟨hno, ht⟩ | ⟨A, B, hs, hmin, ht⟩
        · left
          refine ⟨?_, by rw [ht]⟩
          rintro ⟨a, b, h⟩
          cases a with
          | nil =>
              apply hp
              exact (isPrefixOf_eq_true_iff f (c :: cs)).2 ⟨b, by simpa using h.symm⟩
          | cons x a' =>
              apply hno
              simp only [List.cons_append, List.cons.injEq] at h
              exact ⟨a', b, h.2⟩
        · right
          refine ⟨c :: A, B, by rw [hs]; rfl, ?_, by rw [ht]; rfl⟩
          intro A' B' h
          cases A' with
          | nil =>
              exfalso
              apply hp
              exact (isPrefixOf_eq_true_iff f (c :: cs)).2 ⟨B', by simpa using h⟩
          | cons x A'' =>
              simp only [List.cons_append, List.cons.injEq] at h
              have := hmin A'' B' h.2
              simp only [List.length_cons]
              omega

theorem ReplaceString_first (s f r : Str) (hf : f ≠ []) :
    FirstReplaced f r s (ReplaceString s f r false) := by
  unfold ReplaceString
  rw [isEmpty_eq_false_of_ne hf]
  exact firstReplaced_replaceFirst f r hf s

/-- A title pattern of the shape `lead(.+)` matches `lead ++ E` as a whole, with `E` as
its first capture group. -/
theorem regex_match_lit_plus (lead E : Str) (hE : E ≠ [])
    (hpass : ∀ c ∈ E, c ≠ '\n' ∧ c ≠ '\r') :
    regex_match (.seq (.lit lead) (.group 1 (.many .any 1 none))) (lead ++ E)
      = some [(1, E)] := by
  rw [regex_match_eq, run_seq, run_lit_append, run_group_many]
  have h := manyGo_greedy .any 1 (fun s' => atEnd s' [(1, consumed E s')]) [(1, E)] []
    (by simp [atEnd, consumed_self_nil])
    (by
      intro p q hp hs _
      have := congrArg List.length hs
      have hpos : 0 < p.length := List.length_pos.2 hp
      simp at this
      omega)
    E 0 (fun c hc => any_test_of_not_terminator (hpass c hc))
    (by
      have := List.length_pos.2 hE
      omega)
  rwa [List.append_nil] at h

theorem vrv_title_pattern :
    vrvEntry.title_pattern = .seq (.lit vrvLead) (.group 1 (.many .any 1 none)) := rfl

theorem ApplyStreamTitleFormat_vrv (E : Str) (hE : E ≠ [])
    (hpass : ∀ c ∈ E, c ≠ '\n' ∧ c ≠ '\r') :
    ApplyStreamTitleFormat vrvEntry (vrvLead ++ E) = (true, E) := by
  have hm : regex_match vrvEntry.title_pattern (vrvLead ++ E) = some [(1, E)] := by
    rw [vrv_title_pattern]
    exact regex_match_lit_plus vrvLead E hE hpass
  have hc : vrvEntry.title_pattern.mark_count = 1 := rfl
  simp [ApplyStreamTitleFormat, hm, hc, firstNonEmpty, Caps.str, List.lookup,
    isEmpty_eq_false_of_ne hE]

theorem CleanStreamTitle_vrv_eq (T E : Str)
    (h : ApplyStreamTitleFormat vrvEntry T = (true, E)) :
    CleanStreamTitle vrvEntry T = ReplaceString E ": EP ".toList " - EP ".toList false := by
  unfold CleanStreamTitle
  have hid : vrvEntry.id = Stream.Vrv := rfl
  rw [h]
  simp [hid, WstrToStr, StrToWstr]

/-- C16: VRV post-processing rewrites only the first `: EP `. For every non-empty `E`
without line terminators, the title `VRV - Watch ` followed by `E` is cleaned to `E` with
its first occurrence of `: EP ` replaced by ` - EP ` and everything else, later
occurrences included, left as it is; when `E` contains no `: EP ` the result is `E`. -/
theorem CleanStreamTitle_vrv_first_ep (E : Str) (hE : E ≠ [])
    (hlt : ∀ c ∈ E, c ≠ '\n' ∧ c ≠ '\r') :
    FirstReplaced colonEp dashEp E (CleanStreamTitle vrvEntry (vrvLead ++ E)) ∧
    (¬ colonEp <:+: E → CleanStreamTitle vrvEntry (vrvLead ++ E) = E) := by
  have hc := CleanStreamTitle_vrv_eq _ _ (ApplyStreamTitleFormat_vrv E hE hlt)
  have hf : FirstReplaced colonEp dashEp E (CleanStreamTitle vrvEntry (vrvLead ++ E)) := by
    rw [hc]
    exact ReplaceString_first E colonEp dashEp (by decide)
  refine ⟨hf, fun hno => ?_⟩
  rcases hf with ⟨_, h⟩ | ⟨A, B, hs, _, _⟩
  · exact h
  · exact absurd ⟨A, B, hs.symm⟩ hno

/-- C16, instances: in `Foo: EP 1: EP 2` only the first `: EP ` is rewritten; `Foo: ep 1`,
which holds no `: EP `, stays as it is. -/
theorem CleanStreamTitle_vrv_first_ep_witness :
    (FirstReplaced colonEp dashEp "Foo: EP 1: EP 2".toList
        (CleanStreamTitle vrvEntry (vrvLead ++ "Foo: EP 1: EP 2".toList)) ∧
      CleanStreamTitle vrvEntry (vrvLead ++ "Foo: EP 1: EP 2".toList)
        = "Foo - EP 1: EP 2".toList) ∧
    CleanStreamTitle vrvEntry (vrvLead ++ "Foo: ep 1".toList) = "Foo: ep 1".toList :=
  ⟨⟨(CleanStreamTitle_vrv_first_ep "Foo: EP 1: EP 2".toList (by decide) (by decide)).1,
      by decide⟩,
   (CleanStreamTitle_vrv_first_ep "Foo: ep 1".toList (by decide) (by decide)).2 (by decide)⟩

theorem run_one_eq_some {α : Type} {a : Atom} {s : Str} {c : Caps}
    {k : Str → Caps → Option α} {v : α} (h : (Regex.one a).run s c k = some v) :
    ∃ x xs, s = x :: xs ∧ a.test x = true ∧ k xs c = some v := by
  cases s with
  | nil => cases h
  | cons x xs =>
      unfold Regex.run at h
      by_cases hx : a.test x = true
      · simp only [hx, if_true] at h
        exact ⟨x, xs, rfl, hx, h⟩
      · simp only [hx] at h
        cases h

theorem wakanimTail_accepts (c : Caps) : wakanimTail.run wakanimEnd c atEnd = some c := rfl

theorem wakanimTail_length {q : Str} {c v : Caps}
    (h : wakanimTail.run q c atEnd = some v) : q.length = wakanimEnd.length := by
  unfold wakanimTail at h
  rw [run_seq] at h
  obtain ⟨t, hq, h⟩ := run_lit_eq_some h
  rw [run_seq] at h
  obtain ⟨x, xs, ht, _, h⟩ := run_one_eq_some h
  obtain ⟨t', hxs, h⟩ := run_lit_eq_some h
  obtain ⟨ht', _⟩ := atEnd_eq_some h
  rw [hq, ht, hxs, ht']
  rfl

theorem wakanim_title_pattern :
    wakanimEntry.title_pattern = .seq (.group 1 (.many .any 1 none)) wakanimTail := rfl

theorem ApplyStreamTitleFormat_wakanim (E : Str) (hE : E ≠ [])
    (hpass : ∀ c ∈ E, c ≠ '\n' ∧ c ≠ '\r') :
    ApplyStreamTitleFormat wakanimEntry (E ++ wakanimEnd) = (true, E) := by
  have hm : regex_match wakanimEntry.title_pattern (E ++ wakanimEnd) = some [(1, E)] := by
    rw [wakanim_title_pattern, regex_match_eq, run_seq, run_group_many]
    refine manyGo_greedy .any 1 _ _ wakanimEnd ?_ ?_ E 0
      (fun c hc => any_test_of_not_terminator (hpass c hc)) ?_
    · simp only [wakanimTail_accepts, consumed_append]
    · intro p q hp hs _
      by_contra hne
      obtain ⟨v, hv⟩ := Option.ne_none_iff_exists'.1 hne
      have hl := wakanimTail_length hv
      have hl' := congrArg List.length hs
      simp only [List.length_append] at hl'
      have := List.length_pos.2 hp
      omega
    · have := List.length_pos.2 hE
      omega
  have hc : wakanimEntry.title_pattern.mark_count = 1 := rfl
  simp [ApplyStreamTitleFormat, hm, hc, firstNonEmpty, Caps.str, List.lookup,
    isEmpty_eq_false_of_ne hE]

theorem CleanStreamTitle_wakanim_eq (T E : Str)
    (h : ApplyStreamTitleFormat wakanimEntry T = (true, E)) :
    CleanStreamTitle wakanimEntry T
      = ReplaceString (ReplaceString E " de ".toList " ".toList false)
          " en VOSTFR".toList " VOSTFR".toList false := by
  unfold CleanStreamTitle
  have hid : wakanimEntry.id = Stream.Wakanim := rfl
  rw [h]
  simp [hid, WstrToStr, StrToWstr]

/-- C17: Wakanim post-processing. For every non-empty `E` without line terminators, the
title `E` followed by ` / Streaming - Wakanim.TV` is cleaned to the text obtained from `E`
by first replacing the first occurrence of ` de ` with a blank and then, in that result,
replacing the first occurrence of ` en VOSTFR` with ` VOSTFR`; later occurrences of either
text are left as they are. -/
theorem CleanStreamTitle_wakanim_two_steps (E : Str) (hE : E ≠ [])
    (hlt : ∀ c ∈ E, c ≠ '\n' ∧ c ≠ '\r') :
    ∃ E₁ : Str, FirstReplaced " de ".toList " ".toList E E₁ ∧
      FirstReplaced " en VOSTFR".toList " VOSTFR".toList E₁
        (CleanStreamTitle wakanimEntry (E ++ wakanimEnd)) := by
  rw [CleanStreamTitle_wakanim_eq _ _ (ApplyStreamTitleFormat_wakanim E hE hlt)]
  exact ⟨ReplaceString E " de ".toList " ".toList false,
    ReplaceString_first E _ _ (by decide), ReplaceString_first _ _ _ (by decide)⟩

/-- C17, instance: `Episode 3 de Foo en VOSTFR` becomes `Episode 3 Foo VOSTFR`. -/
theorem CleanStreamTitle_wakanim_two_steps_witness :
    (∃ E₁ : Str, FirstReplaced " de ".toList " ".toList "Episode 3 de Foo en VOSTFR".toList E₁ ∧
      FirstReplaced " en VOSTFR".toList " VOSTFR".toList E₁
        (CleanStreamTitle wakanimEntry ("Episode 3 de Foo en VOSTFR".toList ++ wakanimEnd))) ∧
    CleanStreamTitle wakanimEntry ("Episode 3 de Foo en VOSTFR".toList ++ wakanimEnd)
      = "Episode 3 Foo VOSTFR".toList :=
  ⟨CleanStreamTitle_wakanim_two_steps "Episode 3 de Foo en VOSTFR".toList (by decide)
      (by decide), by decide⟩

/-! ## Facts about the Plex and Anime News Network clean-up -/

theorem exists_leftmost_occurrence (tags : List Str) (s : Str)
    (h : ∃ g ∈ tags, g <:+: s) :
    ∃ A g B : Str, g ∈ tags ∧ s = A ++ g ++ B ∧
      ∀ A' g' B' : Str, g' ∈ tags → s = A' ++ g' ++ B' → A.length ≤ A'.length := by
  classical
  have hex : ∃ n, ∃ A g B : Str, g ∈ tags ∧ s = A ++ g ++ B ∧ A.length = n := by
    obtain ⟨g, hg, A, B, hs⟩ := h
    exact ⟨A.length, A, g, B, hg, hs.symm, rfl⟩
  obtain ⟨A, g, B, hg, hs, hn⟩ := Nat.find_spec hex
  refine ⟨A, g, B, hg, hs, ?_⟩
  intro A' g' B' hg' hs'
  rw [hn]
  exact Nat.find_min' hex ⟨A', g', B', hg', hs', rfl⟩

/-- A function that leaves alone the texts without occurrence and, on the others, keeps
what stands before the leftmost occurrence and goes on after it, deletes every
occurrence. -/
theorem occurrencesRemoved_of_scan (tags : List Str) (F : Str → Str)
    (hne : ∀ g ∈ tags, g ≠ [])
    (h1 : ∀ s, (∀ g ∈ tags, ¬ g <:+: s) → F s = s)
    (h2 : ∀ A g B : Str, g ∈ tags →
      (∀ A' g' B' : Str, g' ∈ tags → A ++ g ++ B = A' ++ g' ++ B' → A.length ≤ A'.length) →
      F (A ++ g ++ B) = A ++ F B) :
    ∀ s, OccurrencesRemoved tags s (F s) := by
  suffices hall : ∀ (n : Nat) (s : Str), s.length = n → OccurrencesRemoved tags s (F s) from
    fun s => hall s.length s rfl
  intro n
  induction n using Nat.strong_induction_on with
  | _ n ih =>
      intro s hn
      by_cases hocc : ∀ g ∈ tags, ¬ g <:+: s
      · rw [h1 s hocc]
        exact .none_left s hocc
      · have hex : ∃ g ∈ tags, g <:+: s := by
          by_contra hcon
          apply hocc
          intro g hg hin
          exact hcon ⟨g, hg, hin⟩
        obtain ⟨A, g, B, hg, hs, hmin⟩ := exists_leftmost_occurrence tags s hex
        subst hs
        rw [h2 A g B hg hmin]
        refine .first A g B (F B) hg hmin (ih B.length ?_ B rfl)
        have := List.length_pos.2 (hne g hg)
        rw [← hn]
        simp only [List.length_append]
        omega

theorem replaceEvery_skip (f r : Str) :
    ∀ p B : Str, replaceEvery f r (p ++ B) p.length = replaceEvery f r B 0 := by
  intro p
  induction p with
  | nil => intro B; rfl
  | cons x p ih =>
      intro B
      show replaceEvery f r (p ++ B) p.length = _
      exact ih B

theorem replaceEvery_absent (f r : Str) :
    ∀ s : Str, ¬ f <:+: s → replaceEvery f r s 0 = s := by
  intro s
  induction s with
  | nil => intro _; rfl
  | cons c cs ih =>
      intro hno
      have hp : f.isPrefixOf (c :: cs) = false := by
        cases h : f.isPrefixOf (c :: cs) with
        | false => rfl
        | true =>
            exfalso
            obtain ⟨t, ht⟩ := (isPrefixOf_eq_true_iff f (c :: cs)).1 h
            exact hno ⟨[], t, by simpa using ht.symm⟩
      have hcs : ¬ f <:+: cs := by
        rintro ⟨a, b, h⟩
        exact hno ⟨c :: a, b, by rw [← h]; rfl⟩
      rw [replaceEvery, hp, ih hcs]
      rfl

theorem replaceEvery_leftmost (f r : Str) (hf : f ≠ []) (B : Str) :
    ∀ A : Str,
      (∀ A' B' : Str, A ++ f ++ B = A' ++ f ++ B' → A.length ≤ A'.length) →
      replaceEvery f r (A ++ f ++ B) 0 = A ++ (r ++ replaceEvery f r B 0) := by
  intro A
  induction A with
  | nil =>
      intro _
      obtain ⟨x, f', rfl⟩ := List.exists_cons_of_ne_nil hf
      have hp : (x :: f').isPrefixOf (x :: (f' ++ B)) = true :=
        (isPrefixOf_eq_true_iff _ _).2 ⟨B, rfl⟩
      show replaceEvery (x :: f') r (x :: (f' ++ B)) 0 = r ++ replaceEvery (x :: f') r B 0
      rw [replaceEvery, if_pos hp]
      show r ++ replaceEvery (x :: f') r (f' ++ B) f'.length = _
      rw [replaceEvery_skip]
  | cons a A ih =>
      intro hmin
      have hp : f.isPrefixOf (a :: (A ++ f ++ B)) = false := by
        cases h : f.isPrefixOf (a :: (A ++ f ++ B)) with
        | false => rfl
        | true =>
            exfalso
            obtain ⟨t, ht⟩ := (isPrefixOf_eq_true_iff f _).1 h
            have := hmin [] t (by simpa using ht)
            simp at this
      have hmin' : ∀ A' B' : Str, A ++ f ++ B = A' ++ f ++ B' → A.length ≤ A'.length := by
        intro A' B' h
        have := hmin (a :: A') B' (by simp only [List.cons_append, h])
        simpa using this
      show replaceEvery f r (a :: (A ++ f ++ B)) 0 = a :: (A ++ (r ++ replaceEvery f r B 0))
      rw [replaceEvery, hp, ih hmin']
      rfl

theorem CleanStreamTitle_plex_eq (T E : Str)
    (h : ApplyStreamTitleFormat plexEntry T = (true, E)) :
    CleanStreamTitle plexEntry T = replaceEvery middleDotSep [] E 0 := by
  unfold CleanStreamTitle
  have hid : plexEntry.id = Stream.Plex := rfl
  rw [h]
  simp only [hid, WstrToStr, StrToWstr]
  rfl

/-- C15 as stated fails: a middle dot without blanks around it stays in the cleaned title,
and where the separator is removed its two blanks go with it, so the cleaned title is not
the extracted text with only the middle dots deleted. -/
theorem CleanStreamTitle_plex_keeps_middle_dot :
    ApplyStreamTitleFormat plexEntry "Foo·bar".toList = (true, "Foo·bar".toList) ∧
    CleanStreamTitle plexEntry "Foo·bar".toList = "Foo·bar".toList ∧
    '·' ∈ CleanStreamTitle plexEntry "Foo·bar".toList ∧
    ApplyStreamTitleFormat plexEntry "Foo · bar".toList
      = (true, "Foo · bar".toList) ∧
    CleanStreamTitle plexEntry "Foo · bar".toList = "Foobar".toList ∧
    CleanStreamTitle plexEntry "Foo · bar".toList
      ≠ "Foo · bar".toList.filter (fun c => c != '·') := by
  decide

/-- C15, amended: Plex post-processing removes the separator made of a blank, a middle dot
U+00B7 and a blank. For every text `E` extracted by the Plex title pattern, the cleaned
title is `E` with every occurrence of that three-character separator deleted, scanning
from the left, and every other character left in place. -/
theorem CleanStreamTitle_plex_removes_separator (T E : Str)
    (h : ApplyStreamTitleFormat plexEntry T = (true, E)) :
    OccurrencesRemoved [middleDotSep] E (CleanStreamTitle plexEntry T) := by
  rw [CleanStreamTitle_plex_eq T E h]
  apply occurrencesRemoved_of_scan [middleDotSep] (fun s => replaceEvery middleDotSep [] s 0)
  · intro g hg
    rw [List.mem_singleton.1 hg]
    decide
  · intro s hno
    exact replaceEvery_absent middleDotSep [] s (hno middleDotSep (List.mem_singleton.2 rfl))
  · intro A g B hg hmin
    rw [List.mem_singleton.1 hg] at hmin ⊢
    have := replaceEvery_leftmost middleDotSep [] (by decide) B A
      (fun A' B' h' => hmin A' middleDotSep B' (List.mem_singleton.2 rfl) h')
    simpa using this

/-- C15, amended, instance: the title `Foo · bar · baz`. -/
theorem CleanStreamTitle_plex_removes_separator_witness :
    OccurrencesRemoved [middleDotSep] "Foo · bar · baz".toList
      (CleanStreamTitle plexEntry "Foo · bar · baz".toList) ∧
    CleanStreamTitle plexEntry "Foo · bar · baz".toList = "Foobarbaz".toList :=
  ⟨CleanStreamTitle_plex_removes_separator "Foo · bar · baz".toList
      "Foo · bar · baz".toList (by decide), by decide⟩

theorem annPattern_eq :
    annPattern =
      .seq (.lit " (".toList) (.seq (.alt (.lit "s".toList) (.lit "d".toList))
        (.seq (.opt (.lit ", uncut".toList)) (.lit ")".toList))) := rfl

theorem run_opt {α : Type} (r : Regex) (s : Str) (c : Caps) (k : Str → Caps → Option α) :
    (Regex.opt r).run s c k = orTry (r.run s c k) (k s c) := rfl

theorem annTags_nonempty : ∀ g ∈ annTags, g ≠ [] := by
  decide

/-- The clean-up pattern matches at the head of a text that starts with one of the four
tags, and consumes exactly the tag. -/
theorem annPattern_matchAt_tag {g : Str} (hg : g ∈ annTags) (rest : Str) :
    matchAt annPattern (g ++ rest) = some (rest, []) := by
  simp only [annTags, List.mem_cons, List.mem_singleton, List.not_mem_nil, or_false] at hg
  unfold matchAt
  rcases hg with rfl | rfl | rfl | rfl
  · show annPattern.run (" (".toList ++ ("s".toList ++ (")".toList ++ rest))) [] _ = _
    simp only [annPattern_eq, run_seq, run_alt, run_opt, run_lit_append]
    rfl
  · show annPattern.run (" (".toList ++ ("d".toList ++ (")".toList ++ rest))) [] _ = _
    simp only [annPattern_eq, run_seq, run_alt, run_opt, run_lit_append]
    rfl
  · show annPattern.run
      (" (".toList ++ ("s".toList ++ (", uncut".toList ++ (")".toList ++ rest)))) [] _ = _
    simp only [annPattern_eq, run_seq, run_alt, run_opt, run_lit_append]
    rfl
  · show annPattern.run
      (" (".toList ++ ("d".toList ++ (", uncut".toList ++ (")".toList ++ rest)))) [] _ = _
    simp only [annPattern_eq, run_seq, run_alt, run_opt, run_lit_append]
    rfl

/-- The clean-up pattern matches at the head of a text only when the text starts with one
of the four tags. -/
theorem annPattern_matchAt_eq_some {s : Str} {v : Str × Caps}
    (h : matchAt annPattern s = some v) :
    ∃ g ∈ annTags, ∃ rest : Str, s = g ++ rest := by
  unfold matchAt at h
  rw [annPattern_eq, run_seq] at h
  obtain ⟨t₁, hs, h⟩ := run_lit_eq_some h
  rw [run_seq, run_alt] at h
  rcases orTry_eq_some h with h | h
  · obtain ⟨t₂, ht₁, h⟩ := run_lit_eq_some h
    rw [run_seq, run_opt] at h
    rcases orTry_eq_some h with h | h
    · obtain ⟨t₃, ht₂, h⟩ := run_lit_eq_some h
      obtain ⟨t₄, ht₃, _⟩ := run_lit_eq_some h
      exact ⟨" (s, uncut)".toList, by decide, t₄, by rw [hs, ht₁, ht₂, ht₃]; rfl⟩
    · obtain ⟨t₄, ht₂, _⟩ := run_lit_eq_some h
      exact ⟨" (s)".toList, by decide, t₄, by rw [hs, ht₁, ht₂]; rfl⟩
  · obtain ⟨t₂, ht₁, h⟩ := run_lit_eq_some h
    rw [run_seq, run_opt] at h
    rcases orTry_eq_some h with h | h
    · obtain ⟨t₃, ht₂, h⟩ := run_lit_eq_some h
      obtain ⟨t₄, ht₃, _⟩ := run_lit_eq_some h
      exact ⟨" (d, uncut)".toList, by decide, t₄, by rw [hs, ht₁, ht₂, ht₃]; rfl⟩
    · obtain ⟨t₄, ht₂, _⟩ := run_lit_eq_some h
      exact ⟨" (d)".toList, by decide, t₄, by rw [hs, ht₁, ht₂]; rfl⟩

theorem replaceGo_skip (r : Regex) (fmt : List Fmt) :
    ∀ p B : Str, replaceGo r fmt (p ++ B) p.length = replaceGo r fmt B 0 := by
  intro p
  induction p with
  | nil => intro B; rfl
  | cons x p ih =>
      intro B
      show replaceGo r fmt (p ++ B) p.length = _
      exact ih B

theorem regex_replace_ann_absent :
    ∀ s : Str, (∀ g ∈ annTags, ¬ g <:+: s) → replaceGo annPattern [] s 0 = s := by
  intro s
  induction s with
  | nil => intro _; decide
  | cons c cs ih =>
      intro hno
      have hm : matchAt annPattern (c :: cs) = none := by
        cases h : matchAt annPattern (c :: cs) with
        | none => rfl
        | some v =>
            exfalso
            obtain ⟨g, hg, rest, hs⟩ := annPattern_matchAt_eq_some h
            exact hno g hg ⟨[], rest, by simpa using hs.symm⟩
      have hcs : ∀ g ∈ annTags, ¬ g <:+: cs := by
        rintro g hg ⟨a, b, h⟩
        exact hno g hg ⟨c :: a, b, by rw [← h]; rfl⟩
      rw [replaceGo, hm]
      simp only
      rw [ih hcs]

theorem regex_replace_ann_leftmost (g B : Str) (hg : g ∈ annTags) :
    ∀ A : Str,
      (∀ A' g' B' : Str, g' ∈ annTags → A ++ g ++ B = A' ++ g' ++ B' →
        A.length ≤ A'.length) →
      replaceGo annPattern [] (A ++ g ++ B) 0 = A ++ replaceGo annPattern [] B 0 := by
  intro A
  induction A with
  | nil =>
      intro _
      have hm := annPattern_matchAt_tag hg B
      obtain ⟨x, g', rfl⟩ := List.exists_cons_of_ne_nil (annTags_nonempty g hg)
      show replaceGo annPattern [] (x :: (g' ++ B)) 0 = replaceGo annPattern [] B 0
      have hm' : matchAt annPattern (x :: (g' ++ B)) = some (B, []) := hm
      rw [replaceGo, hm']
      have hlt : B.length < (x :: (g' ++ B)).length := by
        simp only [List.length_cons, List.length_append]
        omega
      simp only [hlt, if_true]
      have hskip : (g' ++ B).length - B.length = g'.length := by
        simp only [List.length_append]
        omega
      rw [hskip, replaceGo_skip]
      rfl
  | cons a A ih =>
      intro hmin
      have hm : matchAt annPattern (a :: (A ++ g ++ B)) = none := by
        cases h : matchAt annPattern (a :: (A ++ g ++ B)) with
        | none => rfl
        | some v =>
            exfalso
            obtain ⟨g₂, hg₂, rest, hs⟩ := annPattern_matchAt_eq_some h
            have := hmin [] g₂ rest hg₂ (by simpa using hs)
            simp at this
      have hmin' : ∀ A' g' B' : Str, g' ∈ annTags → A ++ g ++ B = A' ++ g' ++ B' →
          A.length ≤ A'.length := by
        intro A' g' B' hg' h
        have := hmin (a :: A') g' B' hg' (by simp only [List.cons_append, h])
        simpa using this
      show replaceGo annPattern [] (a :: (A ++ g ++ B)) 0
        = a :: (A ++ replaceGo annPattern [] B 0)
      rw [replaceGo, hm]
      simp only
      rw [ih hmin']

theorem CleanStreamTitle_ann_eq (T E : Str)
    (h : ApplyStreamTitleFormat annEntry T = (true, E)) :
    CleanStreamTitle annEntry T = replaceGo annPattern [] E 0 := by
  unfold CleanStreamTitle
  have hid : annEntry.id = Stream.Ann := rfl
  rw [h]
  simp only [hid]
  rfl

/-- C14 as stated fails: a tag in the middle of the extracted text is removed as well.
`Foo (s) bar` ends with none of the four tags, yet it is cleaned to `Foo bar`. -/
theorem CleanStreamTitle_ann_removes_inner_tag :
    ApplyStreamTitleFormat annEntry "Foo (s) bar - Anime News Network".toList
      = (true, "Foo (s) bar".toList) ∧
    (∀ g ∈ annTags, EndsWith "Foo (s) bar".toList g = false) ∧
    CleanStreamTitle annEntry "Foo (s) bar - Anime News Network".toList = "Foo bar".toList ∧
    CleanStreamTitle annEntry "Foo (s) bar - Anime News Network".toList
      ≠ "Foo (s) bar".toList := by
  decide

/-- C14, amended: Anime News Network post-processing removes every qualifier tag. For
every text `E` extracted by the title pattern, the cleaned title is `E` with every
occurrence of ` (s)`, ` (d)`, ` (s, uncut)` or ` (d, uncut)` deleted, wherever it stands,
scanning from the left; it is `E` unchanged when `E` contains none of them. -/
theorem CleanStreamTitle_ann_removes_tags (T E : Str)
    (h : ApplyStreamTitleFormat annEntry T = (true, E)) :
    OccurrencesRemoved annTags E (CleanStreamTitle annEntry T) ∧
    ((∀ g ∈ annTags, ¬ g <:+: E) → CleanStreamTitle annEntry T = E) := by
  rw [CleanStreamTitle_ann_eq T E h]
  constructor
  · apply occurrencesRemoved_of_scan annTags (fun s => replaceGo annPattern [] s 0)
      annTags_nonempty regex_replace_ann_absent
    intro A g B hg hmin
    exact regex_replace_ann_leftmost g B hg A hmin
  · exact regex_replace_ann_absent E

/-- C14, amended, instances: a trailing tag and a tag in the middle are both removed; a
text without tag is left as it is. -/
theorem CleanStreamTitle_ann_removes_tags_witness :
    (OccurrencesRemoved annTags "Foo (s) bar (d, uncut)".toList
        (CleanStreamTitle annEntry "Foo (s) bar (d, uncut) - Anime News Network".toList) ∧
      CleanStreamTitle annEntry "Foo (s) bar (d, uncut) - Anime News Network".toList
        = "Foo bar".toList) ∧
    CleanStreamTitle annEntry "Foo bar - Anime News Network".toList = "Foo bar".toList :=
  ⟨⟨(CleanStreamTitle_ann_removes_tags "Foo (s) bar (d, uncut) - Anime News Network".toList
        "Foo (s) bar (d, uncut)".toList (by decide)).1, by decide⟩,
   (CleanStreamTitle_ann_removes_tags "Foo bar - Anime News Network".toList
      "Foo bar".toList (by decide)).2 (by decide)⟩

/-! ## Idempotence of the noise normalizer -/

theorem StartsWith_of_append {p a x : Str} (h : StartsWith (p ++ a) x = false) :
    StartsWith p x = false := by
  cases hp : StartsWith p x with
  | false => rfl
  | true =>
      exfalso
      unfold StartsWith at h hp
      obtain ⟨s, hs⟩ := (isPrefixOf_eq_true_iff x p).1 hp
      have : x.isPrefixOf (p ++ a) = true :=
        (isPrefixOf_eq_true_iff x (p ++ a)).2 ⟨s ++ a, by rw [hs, List.append_assoc]⟩
      rw [h] at this
      cases this

/-- The beginning of a title that is not cleared can only be cleared for being a
placeholder title or for ending in ` - Network error`. -/
theorem isIgnoredTitle_beginning (h p a : Str) (hi : isIgnoredTitle h (p ++ a) = false) :
    isIgnoredTitle h p = (decide (p ∈ common_titles) || EndsWith p networkError) := by
  unfold isIgnoredTitle at hi ⊢
  simp only [Bool.or_eq_false_iff, Bool.and_eq_false_iff] at hi
  obtain ⟨⟨⟨⟨h1, h2⟩, h3⟩, _⟩, _⟩ := hi
  have e1 : (!h.isEmpty && StartsWith p h) = false := by
    rcases h1 with h1 | h1
    · rw [h1]
      rfl
    · rw [StartsWith_of_append h1]
      exact Bool.and_false _
  rw [e1, StartsWith_of_append h2, StartsWith_of_append h3]
  rfl

theorem EraseRight_ne_self {p a : Str} (ha : a ≠ []) (h : EndsWith p a = true) :
    EraseRight p a ≠ p := by
  obtain ⟨q, hq⟩ := EndsWith_split h
  rw [hq, EraseRight_append]
  intro hc
  have hl := congrArg List.length hc
  have := List.length_pos.2 ha
  simp only [List.length_append] at hl
  omega

theorem isIgnoredTitle_nil (h : Str) : isIgnoredTitle h [] = false := by
  cases h with
  | nil => decide
  | cons x xs =>
      have e : isIgnoredTitle (x :: xs) []
          = (StartsWith [] httpScheme || StartsWith [] httpsScheme
              || decide (([] : Str) ∈ common_titles) || EndsWith [] networkError) := rfl
      rw [e]
      decide

theorem EndsWith_append_self (p a : Str) : EndsWith (p ++ a) a = true := by
  unfold EndsWith
  rw [List.isSuffixOf_iff_suffix]
  exact List.suffix_append p a

/-- A title that no host or scheme test clears is left unchanged by the normalizer exactly
when it is no placeholder title and ends neither in ` - Network error` nor in
` - Audio playing`. -/
theorem NormalizeWebBrowserTitle_fixed_iff (parse : UrlParser) (url r : Str)
    (hr : isIgnoredTitle (parse url).host r
      = (decide (r ∈ common_titles) || EndsWith r networkError)) :
    NormalizeWebBrowserTitle parse url r = r ↔
      (r ∉ common_titles ∧ EndsWith r networkError = false ∧
        EndsWith r audioPlaying = false) := by
  have hnil1 : ([] : Str) ∉ common_titles := by decide
  have hnil2 : EndsWith [] networkError = false := by decide
  have hnil3 : EndsWith [] audioPlaying = false := by decide
  rw [NormalizeWebBrowserTitle_eq, hr]
  constructor
  · intro hfix
    cases hc : decide (r ∈ common_titles) with
    | true =>
        rw [hc] at hfix
        have hr0 : r = [] := hfix.symm
        rw [hr0] at hc
        exact absurd (of_decide_eq_true hc) hnil1
    | false =>
        have hmem : r ∉ common_titles := of_decide_eq_false hc
        cases hn : EndsWith r networkError with
        | true =>
            rw [hc, hn] at hfix
            have hr0 : r = [] := hfix.symm
            rw [hr0, hnil2] at hn
            cases hn
        | false =>
            rw [hc, hn] at hfix
            refine ⟨hmem, rfl, ?_⟩
            cases ha : EndsWith r audioPlaying with
            | false => rfl
            | true => exact absurd hfix (EraseRight_ne_self (by decide) ha)
  · rintro ⟨hmem, hn, ha⟩
    rw [decide_eq_false hmem, hn]
    exact EraseRight_of_not_endsWith ha

/-- C18, amended: `NormalizeWebBrowserTitle` is idempotent exactly when its result is not
itself a placeholder title, a title ending in ` - Network error` or a title ending in
` - Audio playing`. For every URL and every title `t`, normalizing the result again with
the same URL returns it unchanged if and only if the result is none of these three; the
result is one of the three only when `t` is that result followed by ` - Audio playing`;
and on every `t` that does not end with ` - Audio playing` normalizing is idempotent. -/
theorem NormalizeWebBrowserTitle_idempotent_iff (parse : UrlParser) (url t : Str) :
    (NormalizeWebBrowserTitle parse url (NormalizeWebBrowserTitle parse url t)
        = NormalizeWebBrowserTitle parse url t ↔
      (NormalizeWebBrowserTitle parse url t ∉ common_titles ∧
        EndsWith (NormalizeWebBrowserTitle parse url t) networkError = false ∧
        EndsWith (NormalizeWebBrowserTitle parse url t) audioPlaying = false)) ∧
    ((NormalizeWebBrowserTitle parse url t ∈ common_titles ∨
        EndsWith (NormalizeWebBrowserTitle parse url t) networkError = true ∨
        EndsWith (NormalizeWebBrowserTitle parse url t) audioPlaying = true) →
      t = NormalizeWebBrowserTitle parse url t ++ audioPlaying) ∧
    (EndsWith t audioPlaying = false →
      NormalizeWebBrowserTitle parse url (NormalizeWebBrowserTitle parse url t)
        = NormalizeWebBrowserTitle parse url t) := by
  have hnil1 : ([] : Str) ∉ common_titles := by decide
  have hnil2 : EndsWith [] networkError = false := by decide
  have hnil3 : EndsWith [] audioPlaying = false := by decide
  have hshape : isIgnoredTitle (parse url).host (NormalizeWebBrowserTitle parse url t)
        = (decide (NormalizeWebBrowserTitle parse url t ∈ common_titles)
            || EndsWith (NormalizeWebBrowserTitle parse url t) networkError) ∧
      ((NormalizeWebBrowserTitle parse url t ∈ common_titles ∨
          EndsWith (NormalizeWebBrowserTitle parse url t) networkError = true ∨
          EndsWith (NormalizeWebBrowserTitle parse url t) audioPlaying = true) →
        t = NormalizeWebBrowserTitle parse url t ++ audioPlaying) := by
    cases hi : isIgnoredTitle (parse url).host t with
    | true =>
        have hn : NormalizeWebBrowserTitle parse url t = [] := by
          rw [NormalizeWebBrowserTitle_eq, hi]
          rfl
        rw [hn]
        refine ⟨by rw [isIgnoredTitle_nil, decide_eq_false hnil1, hnil2]; rfl, ?_⟩
        rintro (h | h | h)
        · exact absurd h hnil1
        · rw [hnil2] at h
          cases h
        · rw [hnil3] at h
          cases h
    | false =>
        cases ha : EndsWith t audioPlaying with
        | false =>
            have hn : NormalizeWebBrowserTitle parse url t = t := by
              rw [NormalizeWebBrowserTitle_eq, hi]
              exact EraseRight_of_not_endsWith ha
            rw [hn]
            have hb := isIgnoredTitle_beginning (parse url).host t []
              (by rw [List.append_nil]; exact hi)
            refine ⟨hb, ?_⟩
            rw [hi] at hb
            have hb' := hb.symm
            simp only [Bool.or_eq_false_iff] at hb'
            rintro (h | h | h)
            · rw [decide_eq_true h] at hb'
              cases hb'.1
            · rw [h] at hb'
              cases hb'.2
            · rw [ha] at h
              cases h
        | true =>
            obtain ⟨p, hp⟩ := EndsWith_split ha
            have hn : NormalizeWebBrowserTitle parse url t = p := by
              rw [NormalizeWebBrowserTitle_eq, hi]
              show EraseRight t audioPlaying = p
              rw [hp, EraseRight_append]
            rw [hn]
            refine ⟨isIgnoredTitle_beginning (parse url).host p audioPlaying ?_, fun _ => hp⟩
            rw [← hp]
            exact hi
  have hiff := NormalizeWebBrowserTitle_fixed_iff parse url
    (NormalizeWebBrowserTitle parse url t) hshape.1
  refine ⟨hiff, hshape.2, ?_⟩
  intro ha
  apply hiff.2
  have hgood : ¬ (NormalizeWebBrowserTitle parse url t ∈ common_titles ∨
      EndsWith (NormalizeWebBrowserTitle parse url t) networkError = true ∨
      EndsWith (NormalizeWebBrowserTitle parse url t) audioPlaying = true) := by
    intro hbad
    have ht := hshape.2 hbad
    have he := EndsWith_append_self (NormalizeWebBrowserTitle parse url t) audioPlaying
    rw [← ht, ha] at he
    cases he
  refine ⟨fun h => hgood (Or.inl h), ?_, ?_⟩
  · cases h : EndsWith (NormalizeWebBrowserTitle parse url t) networkError with
    | false => rfl
    | true => exact absurd (Or.inr (Or.inl h)) hgood
  · cases h : EndsWith (NormalizeWebBrowserTitle parse url t) audioPlaying with
    | false => rfl
    | true => exact absurd (Or.inr (Or.inr h)) hgood

/-- C18, amended, instances: `Foo - Audio playing` ends with the suffix and is normalized
idempotently, its result `Foo` being none of the three; `New Tab - Audio playing` is its
placeholder result `New Tab` followed by the suffix; `Some Show - Episode 1` does not end
with the suffix. -/
theorem NormalizeWebBrowserTitle_idempotent_iff_witness :
    NormalizeWebBrowserTitle (hostParser []) []
        (NormalizeWebBrowserTitle (hostParser []) [] "Foo - Audio playing".toList)
      = NormalizeWebBrowserTitle (hostParser []) [] "Foo - Audio playing".toList ∧
    "New Tab - Audio playing".toList
      = NormalizeWebBrowserTitle (hostParser []) [] "New Tab - Audio playing".toList
          ++ audioPlaying ∧
    NormalizeWebBrowserTitle (hostParser []) []
        (NormalizeWebBrowserTitle (hostParser []) [] "Some Show - Episode 1".toList)
      = NormalizeWebBrowserTitle (hostParser []) [] "Some Show - Episode 1".toList :=
  ⟨(NormalizeWebBrowserTitle_idempotent_iff (hostParser []) []
      "Foo - Audio playing".toList).1.2 (by decide),
   (NormalizeWebBrowserTitle_idempotent_iff (hostParser []) []
      "New Tab - Audio playing".toList).2.1 (Or.inl (by decide)),
   (NormalizeWebBrowserTitle_idempotent_iff (hostParser []) []
      "Some Show - Episode 1".toList).2.2 (by decide)⟩

end track.recognition
